import Mathlib

/-!
# SOCKS5 proxy (`socks5/types.go`, `socks5/server.go`): a shallow embedding

The wire codec, the handshake, the command dispatcher and the CONNECT executor
with its first-bytes splitter are transcribed as pure functions over an explicit
connection state.

* A byte is a natural number (a wire byte is below 256), a byte string a `List Nat`;
  `byte(x)` is `x % 256`.
* The client socket `c.rwc` is a value of type `Conn`: the chunks the client will
  deliver (one chunk is what one `Read` can return at most), the results of the
  coming `Write` calls, and the trace of everything the serving task did.
* Go errors are compared by identity; each sentinel of `types.go` is a constructor
  of `Error`, distinct from every error made elsewhere.
* User callbacks can reach only `Conn.Data` (the socket field is unexported), so a
  callback is a function of the datum that returns its error and the new datum.
* The Go standard library and the network are parameters (`Env`); `net.IP.String` is
  also transcribed from the library (`netIPString`), for the text of a destination.
* A Go `string` made from bytes of the request (the destination, the host a connect
  handler gets and returns, the address dialed) is its sequence of bytes, a
  `List Nat`; `goString s` is the Go string of the text `s`, its UTF-8 bytes.
-/

set_option linter.dupNamespace false

namespace Socks5

/-- The type of `Conn.Data` (main.go stores the authenticated user name). -/
abbrev Data := Option String

/-! ## Errors -/

/-- Go `error` values seen by the package. The first three are the sentinels of
`types.go`; `new` is any other `errors.New`; `opError` is a `*net.OpError`, with
`dns` telling whether its `Err` is a `*net.DNSError`. -/
inductive Error where
  | ErrAuthenticationFailed
  | ErrConnectionNotAllowedByRuleset
  | ErrAddressTypeNotSupported
  | EOF
  | ErrUnexpectedEOF
  | new (msg : String)
  | opError (dns : Bool) (msg : String)
  deriving DecidableEq, Repr

/-- The method `err.Error()`. -/
def Error.Error : Error → String
  | .ErrAuthenticationFailed => "authentication failed"
  | .ErrConnectionNotAllowedByRuleset => "connection not allowed by ruleset"
  | .ErrAddressTypeNotSupported => "address type not supported"
  | .EOF => "EOF"
  | .ErrUnexpectedEOF => "unexpected EOF"
  | .new msg => msg
  | .opError _ msg => msg

/-! ## Constants of `types.go` -/

def verSocks5 : Nat := 0x05
def authNoAuthenticationRequired : Nat := 0x00
def authUsernamePassword : Nat := 0x02
def authUsernamePasswordVersion : Nat := 0x01
def authUsernamePasswordStatusSuccess : Nat := 0x00
def authUsernamePasswordStatusFailure : Nat := 0x01
def authNoAcceptableMethods : Nat := 0xFF
def cmdConnect : Nat := 0x01
def cmdBind : Nat := 0x02
def cmdUDPAssociate : Nat := 0x03
def atypIPv4Address : Nat := 0x01
def atypDomainName : Nat := 0x03
def atypIPv6Address : Nat := 0x04
def repSucceeded : Nat := 0x00
def repGeneralSocksServerFailure : Nat := 0x01
def repConnectionNotAllowedByRuleset : Nat := 0x02
def repHostUnreachable : Nat := 0x04
def repComandNotSupported : Nat := 0x07
def repAddressTypeNotSupported : Nat := 0x08
def rsvReserved : Nat := 0x00
def IPv4len : Nat := 4
def IPv6len : Nat := 16

/-! ## The byte stream read from the client -/

/-- What is still to arrive from the client: a list of chunks. One `Read` returns
bytes of the first chunk only (a short read); no chunk left is end of stream. The
bytes of the stream, whatever their chunking, are `r.flatten`. -/
abbrev Reader := List (List Nat)

/-- The call `r.Read(buf)` with `len(buf) = n`: the bytes stored at the front of `buf`
(their number is the returned count), the error, and the rest of the stream. -/
def Read (n : Nat) : Reader → (List Nat × Option Error) × Reader
  | [] => (([], some .EOF), [])
  | c :: rest =>
    if c.length ≤ n then ((c, none), rest)
    else ((c.take n, none), c.drop n :: rest)

/-- The buffer `make([]byte, n)` after `bs` was stored at its front. -/
def mkBuf (n : Nat) (bs : List Nat) : List Nat :=
  bs ++ List.replicate (n - bs.length) 0

/-- The call `io.ReadFull(r, buf)` with `len(buf) = k` (the loop of `io.ReadAtLeast`):
`Read` is repeated on the rest of the buffer until `k` bytes are stored or the
stream ends; the end of stream is `EOF` when nothing was stored and
`ErrUnexpectedEOF` after some bytes. -/
def ReadFull : Nat → Reader → (List Nat × Option Error) × Reader
  | k, [] => if k = 0 then (([], none), []) else (([], some .EOF), [])
  | k, c :: rest =>
    if k = 0 then (([], none), c :: rest)
    else if k < c.length then ((c.take k, none), c.drop k :: rest)
    else
      match ReadFull (k - c.length) rest with
      | ((bs, e), r) =>
        ((c ++ bs, if e = some .EOF ∧ c ++ bs ≠ [] then some .ErrUnexpectedEOF else e), r)

/-- The call `binary.Read(r, binary.BigEndian, &b)` for a `byte`: the value is stored
only when the byte could be read. -/
def binaryReadByte (r : Reader) : Except Error Nat × Reader :=
  match ReadFull 1 r with
  | ((bs, none), r1) => (.ok (bs.headD 0), r1)
  | ((_, some e), r1) => (.error e, r1)

/-- The call `binary.Read(r, binary.BigEndian, &v)` for a `uint16`. -/
def binaryReadUint16 (r : Reader) : Except Error Nat × Reader :=
  match ReadFull 2 r with
  | ((bs, none), r1) => (.ok (bs.getD 0 0 * 256 + bs.getD 1 0), r1)
  | ((_, some e), r1) => (.error e, r1)

/-! ## Frames of `types.go` -/

structure header where
  ver : Nat := 0
  methods : List Nat := []
  deriving DecidableEq, Repr

/-- The method `header.ReadFrom`: the count `n`, the error, the receiver after the
call and the rest of the stream. -/
def header.ReadFrom (h : header) (r : Reader) : (Nat × Option Error) × header × Reader :=
  match binaryReadByte r with
  | (.error e, r1) => ((0, some e), h, r1)
  | (.ok v, r1) =>
    let h1 := { h with ver := v }
    if v ≠ verSocks5 then
      ((1, some (.new "head.ReadFrom: unsupported protocol version")), h1, r1)
    else
      match binaryReadByte r1 with
      | (.error e, r2) => ((1, some e), h1, r2)
      | (.ok nm, r2) =>
        match ReadFull nm r2 with
        | ((bs, some e), r3) => ((2, some e), { h1 with methods := mkBuf nm bs }, r3)
        | ((bs, none), r3) => ((2 + nm, none), { h1 with methods := mkBuf nm bs }, r3)

structure userpass where
  ver : Nat := 0
  uname : List Nat := []
  passwd : List Nat := []
  deriving DecidableEq, Repr

/-- The method `userpass.ReadFrom`. -/
def userpass.ReadFrom (up : userpass) (r : Reader) :
    (Nat × Option Error) × userpass × Reader :=
  match binaryReadByte r with
  | (.error e, r1) => ((0, some e), up, r1)
  | (.ok v, r1) =>
    let up1 := { up with ver := v }
    if v ≠ authUsernamePasswordVersion then
      ((1, some (.new
        "userpass.ReadFrom: unsupported USERNAME/PASSWORD authentication protocol version")),
        up1, r1)
    else
      match binaryReadByte r1 with
      | (.error e, r2) => ((1, some e), up1, r2)
      | (.ok ulen, r2) =>
        match ReadFull ulen r2 with
        | ((bs, some e), r3) => ((2, some e), { up1 with uname := mkBuf ulen bs }, r3)
        | ((bs, none), r3) =>
          let up2 := { up1 with uname := mkBuf ulen bs }
          match binaryReadByte r3 with
          | (.error e, r4) => ((2 + ulen, some e), up2, r4)
          | (.ok plen, r4) =>
            match ReadFull plen r4 with
            | ((ps, some e), r5) =>
              ((2 + ulen + 1, some e), { up2 with passwd := mkBuf plen ps }, r5)
            | ((ps, none), r5) =>
              ((2 + ulen + 1 + plen, none), { up2 with passwd := mkBuf plen ps }, r5)

structure cmd where
  ver : Nat := 0
  cmd : Nat := 0
  rsv : Nat := 0
  atyp : Nat := 0
  dst_addr : List Nat := []
  dst_port : Nat := 0
  deriving DecidableEq, Repr

/-- The tail of `cmd.ReadFrom` after the `switch` on `atyp` fixed the count `n` and the
address length `ln`: the address, then the port. -/
def cmd.readAddrPort (c : Socks5.cmd) (n ln : Nat) (r : Reader) :
    (Nat × Option Error) × Socks5.cmd × Reader :=
  match ReadFull ln r with
  | ((bs, some e), r1) => ((n, some e), { c with dst_addr := mkBuf ln bs }, r1)
  | ((bs, none), r1) =>
    let c1 := { c with dst_addr := mkBuf ln bs }
    match binaryReadUint16 r1 with
    | (.error e, r2) => ((n + ln, some e), c1, r2)
    | (.ok p, r2) => ((n + ln + 2, none), { c1 with dst_port := p }, r2)

/-- The method `cmd.ReadFrom`. -/
def cmd.ReadFrom (c : Socks5.cmd) (r : Reader) :
    (Nat × Option Error) × Socks5.cmd × Reader :=
  match binaryReadByte r with
  | (.error e, r1) => ((0, some e), c, r1)
  | (.ok v, r1) =>
    let c1 := { c with ver := v }
    if v ≠ verSocks5 then
      ((1, some (.new "cmd.ReadFrom: unsupported protocol version")), c1, r1)
    else
      match binaryReadByte r1 with
      | (.error e, r2) => ((1, some e), c1, r2)
      | (.ok cm, r2) =>
        let c2 := { c1 with cmd := cm }
        match binaryReadByte r2 with
        | (.error e, r3) => ((2, some e), c2, r3)
        | (.ok rs, r3) =>
          let c3 := { c2 with rsv := rs }
          match binaryReadByte r3 with
          | (.error e, r4) => ((3, some e), c3, r4)
          | (.ok aty, r4) =>
            let c4 := { c3 with atyp := aty }
            if aty = atypIPv4Address then c4.readAddrPort 4 IPv4len r4
            else if aty = atypDomainName then
              match binaryReadByte r4 with
              | (.error e, r5) => ((4, some e), c4, r5)
              | (.ok ln, r5) => c4.readAddrPort 5 ln r5
            else if aty = atypIPv6Address then c4.readAddrPort 4 IPv6len r4
            else ((4, some .ErrAddressTypeNotSupported), c4, r4)

/-! ## Go strings -/

/-- The UTF-8 encoding of one code point, as the Go compiler stores it in a string
literal: one to four bytes. -/
def utf8EncodeChar (c : Char) : List Nat :=
  if c.toNat < 0x80 then [c.toNat]
  else if c.toNat < 0x800 then [0xc0 + c.toNat / 64, 0x80 + c.toNat % 64]
  else if c.toNat < 0x10000 then
    [0xe0 + c.toNat / 4096, 0x80 + c.toNat / 64 % 64, 0x80 + c.toNat % 64]
  else
    [0xf0 + c.toNat / 262144, 0x80 + c.toNat / 4096 % 64, 0x80 + c.toNat / 64 % 64,
      0x80 + c.toNat % 64]

/-- The Go string with the text `s`: the bytes of its UTF-8 encoding. A Go string is
any sequence of bytes; the conversion `string(b)` of a byte slice is the bytes `b`
themselves. -/
def goString (s : String) : List Nat := s.data.flatMap utf8EncodeChar

/-! ## The connection and the server -/

/-- What the serving task of one connection does, in order. `write` is a call of
`c.rwc.Write` with its argument and whether it succeeded; `upWrite` is a call of
`conn.Write` on the dialed socket; `relay` is the start of the two copy loops. -/
inductive Event where
  | write (bs : List Nat) (ok : Bool)
  | authNoAuth
  | authUserPass (uname passwd : List Nat)
  | connectHook (i : Nat) (host : List Nat)
  | dial (addr : List Nat)
  | upWrite (bs : List Nat)
  | relay
  | upClose
  | closeHook (i : Nat)
  | rwcClose
  deriving DecidableEq, Repr

/-- The struct `Conn`, with the socket `rwc` spelled out: `input` is what the client
will send, `wres` the results of the coming calls of `rwc.Write` (`some msg` is a
failing write; past the end of the list every write succeeds), `trace` the events
so far. -/
structure Conn where
  input : Reader := []
  wres : List (Option String) := []
  trace : List Event := []
  Data : Socks5.Data := none
  deriving DecidableEq, Repr

/-- The struct `Server` without its logger. A callback gets the datum of the
connection and returns its Go results and the datum it leaves. A close handler has
no Go result: it returns, or it panics with a value (`some msg`); either way it
leaves a datum. -/
structure Server where
  AuthNoAuthenticationRequiredCallback : Option (Data → Option Error × Data) := none
  AuthUsernamePasswordCallback :
    Option (Data → List Nat → List Nat → Option Error × Data) := none
  connectHandlers : List (Data → List Nat → (List Nat × Option Error) × Data) := []
  closeHandlers : List (Data → Option String × Data) := []

/-- How a Go function call ends: it returns its `error` result, or it panics. -/
inductive Outcome where
  | ret (err : Option Error)
  | panic (msg : String)
  deriving DecidableEq, Repr

/-- The Go standard library and the network, as far as `server.go` calls them. -/
structure Env where
  /-- The method `net.IP(b).String()`. -/
  IPString : List Nat → String
  /-- The call `net.Dial("tcp", to)`: the error, or the text of `conn.LocalAddr()`. -/
  Dial : List Nat → Except Error String
  /-- The function `net.SplitHostPort`. -/
  SplitHostPort : String → Except Error (String × String)
  /-- The function `net.ParseIP`; `none` is the nil slice. -/
  ParseIP : String → Option (List Nat)
  /-- The function `strconv.Atoi`. -/
  Atoi : String → Except Error Int
  /-- The value of `rand.Intn(100)`. -/
  Intn100 : Fin 100
  /-- The function `strings.ToLower` on text with a byte of 0x80 or more, where it goes
  through `strings.Map(unicode.ToLower, s)`. -/
  MapToLower : List Nat → List Nat
  /-- The results `err` and `err2` of the two `io.Copy` loops of the relay. -/
  Copy : Option Error × Option Error

/-- Append an event to the trace. -/
def Conn.log (c : Conn) (e : Event) : Conn := { c with trace := c.trace ++ [e] }

/-- The call `c.rwc.Write(bs)`: the count and the error. A failing write is a
`*net.OpError` and its count is taken as 0. -/
def Conn.Write (c : Conn) (bs : List Nat) : (Nat × Option Error) × Conn :=
  match c.wres with
  | [] => ((bs.length, none), c.log (.write bs true))
  | none :: w => ((bs.length, none), { c with wres := w }.log (.write bs true))
  | some msg :: w => ((0, some (.opError false msg)), { c with wres := w }.log (.write bs false))

/-- The calls of `c.rwc.Write` in a trace: the byte strings, in order. -/
def clientWrites : List Event → List (List Nat)
  | [] => []
  | .write bs _ :: es => bs :: clientWrites es
  | _ :: es => clientWrites es

/-- The calls of `conn.Write` on the dialed socket in a trace, in order. -/
def upstreamWrites : List Event → List (List Nat)
  | [] => []
  | .upWrite bs :: es => bs :: upstreamWrites es
  | _ :: es => upstreamWrites es

/-! ## The reply frame -/

structure cmdResp where
  ver : Nat := 0
  rep : Nat := 0
  rsv : Nat := 0
  atyp : Nat := 0
  bnd_addr : List Nat := []
  bnd_port : Nat := 0
  deriving DecidableEq, Repr

/-- The bytes `binary.BigEndian.PutUint16` stores for a `uint16`. -/
def putUint16 (v : Nat) : List Nat := [v / 256 % 256, v % 256]

/-- The buffer `buf` that `cmdResp.WriteTo` builds before its `w.Write(buf)`, or the
error of its validation. -/
def cmdResp.encode (c : cmdResp) : Except Error (List Nat) :=
  if c.ver ≠ verSocks5 then .error (.new "cmdResp.WriteTo: unsupported protocol version")
  else
    let buf := [c.ver, c.rep, c.rsv, c.atyp]
    if c.atyp = atypIPv4Address then
      if c.bnd_addr.length < IPv4len then .error (.new "cmdResp.bnd_addr too short")
      else .ok (buf ++ c.bnd_addr.take IPv4len ++ putUint16 c.bnd_port)
    else if c.atyp = atypDomainName then
      if c.bnd_addr.length > 255 then .error (.new "cmdResp.bnd_addr too large")
      else .ok (buf ++ [c.bnd_addr.length % 256] ++ c.bnd_addr ++ putUint16 c.bnd_port)
    else if c.atyp = atypIPv6Address then
      if c.bnd_addr.length < IPv6len then .error (.new "cmdResp.bnd_addr too short")
      else .ok (buf ++ c.bnd_addr.take IPv6len ++ putUint16 c.bnd_port)
    else .ok (buf ++ putUint16 c.bnd_port)

/-- The method `cmdResp.WriteTo` on the client socket. -/
def cmdResp.WriteTo (c : cmdResp) (w : Conn) : (Nat × Option Error) × Conn :=
  match c.encode with
  | .error e => ((0, some e), w)
  | .ok buf => w.Write buf

/-! ## The handshake of `server.go` -/

/-- The call `bytes.IndexByte(b, c)`. -/
def bytesIndexByte (b : List Nat) (c : Nat) : Int :=
  if c ∈ b then (b.indexOf c : Int) else -1

/-- The method `Conn.handshakeNoAuth`. Calling the nil callback is a panic. -/
def Conn.handshakeNoAuth (srv : Server) (c : Conn) : Outcome × Conn :=
  match srv.AuthNoAuthenticationRequiredCallback with
  | none => (.panic "invalid memory address or nil pointer dereference", c)
  | some cb =>
    match cb c.Data with
    | (some err, d) => (.ret (some err), { c.log .authNoAuth with Data := d })
    | (none, d) =>
      match ({ c.log .authNoAuth with Data := d }).Write
          [verSocks5, authNoAuthenticationRequired] with
      | ((_, err), c1) => (.ret err, c1)

/-- The method `Conn.handshakeUsernamePassword`. -/
def Conn.handshakeUsernamePassword (srv : Server) (c : Conn) : Outcome × Conn :=
  match c.Write [verSocks5, authUsernamePassword] with
  | ((_, some err), c1) => (.ret (some err), c1)
  | ((_, none), c1) =>
    match userpass.ReadFrom {} c1.input with
    | ((_, some err), _, r) =>
      (.ret (some err),
        ({ c1 with input := r }.Write
          [authUsernamePasswordVersion, authUsernamePasswordStatusFailure]).2)
    | ((_, none), up, r) =>
      let c2 := { c1 with input := r }
      match srv.AuthUsernamePasswordCallback with
      | none => (.panic "invalid memory address or nil pointer dereference", c2)
      | some cb =>
        match cb c2.Data up.uname up.passwd with
        | (some err, d) =>
          (.ret (some err),
            ({ c2.log (.authUserPass up.uname up.passwd) with Data := d }.Write
              [authUsernamePasswordVersion, authUsernamePasswordStatusFailure]).2)
        | (none, d) =>
          match ({ c2.log (.authUserPass up.uname up.passwd) with Data := d }).Write
              [authUsernamePasswordVersion, authUsernamePasswordStatusSuccess] with
          | ((_, err), c3) => (.ret err, c3)

/-- The end of `Conn.handshake`, from its second `if`: the username/password method
when it is registered and advertised, else the refusal `05 FF`. -/
def Conn.handshakeUserPassOrRefuse (srv : Server) (head : header) (c : Conn) :
    Outcome × Conn :=
  if srv.AuthUsernamePasswordCallback.isSome ∧
      bytesIndexByte head.methods authUsernamePassword ≠ -1 then
    c.handshakeUsernamePassword srv
  else
    (.ret (some .ErrAuthenticationFailed),
      (c.Write [verSocks5, authNoAcceptableMethods]).2)

/-- The method `Conn.handshake`. -/
def Conn.handshake (srv : Server) (c : Conn) : Outcome × Conn :=
  match header.ReadFrom {} c.input with
  | ((_, some err), _, r) => (.ret (some err), { c with input := r })
  | ((_, none), head, r) =>
    let c1 := { c with input := r }
    if srv.AuthNoAuthenticationRequiredCallback.isSome ∧
        bytesIndexByte head.methods authNoAuthenticationRequired ≠ -1 then
      match c1.handshakeNoAuth srv with
      | (.ret (some .ErrAuthenticationFailed), c2) => c2.handshakeUserPassOrRefuse srv head
      | (out, c2) => (out, c2)
    else c1.handshakeUserPassOrRefuse srv head

/-! ## The CONNECT executor of `server.go` -/

/-- The function `writeCommandErrorReply` on the client socket. -/
def writeCommandErrorReply (c : Conn) (rep : Nat) : Option Error × Conn :=
  match c.Write [verSocks5, rep, rsvReserved, atypIPv4Address, 0, 0, 0, 0, 0, 0] with
  | ((_, err), c1) => (err, c1)

/-- The function `net.IPv4(a, b, c, d)` of the Go library: the 16-byte form of the
address, the four bytes after the prefix of an IPv4-mapped address. -/
def netIPv4 (a b c d : Nat) : List Nat :=
  [0, 0, 0, 0, 0, 0, 0, 0, 0, 0, 0xff, 0xff, a, b, c, d]

/-- The method `cmd.DestAddress`. The text of `net.IPv4(a, b, c, d)` and that of a
16-byte address are both `env.IPString`, the method `String` of `net.IP`;
`string(c.dst_addr)` is the bytes of the address as they are; the decimal of
`strconv.Itoa` is that of `toString`. A missing address byte reads as 0
(`cmd.ReadFrom` stores four). -/
def cmd.DestAddress (env : Env) (c : Socks5.cmd) : List Nat :=
  let host :=
    if c.atyp = atypIPv4Address then
      goString (env.IPString (netIPv4 (c.dst_addr.getD 0 0) (c.dst_addr.getD 1 0)
        (c.dst_addr.getD 2 0) (c.dst_addr.getD 3 0)))
    else if c.atyp = atypDomainName then c.dst_addr
    else if c.atyp = atypIPv6Address then goString (env.IPString c.dst_addr)
    else goString "<unsupported address type>"
  host ++ goString ":" ++ goString (toString c.dst_port)

/-- The loop of `commandConnect` over `c.server.connectHandlers`, from the handler of
index `i` on with the host `host`: the host for the dial when every handler
agreed, or how `commandConnect` returns after the error reply. -/
def Conn.runConnectHandlers :
    List (Socks5.Data → List Nat → (List Nat × Option Error) × Socks5.Data) → Nat →
      List Nat → Conn → (Outcome ⊕ List Nat) × Conn
  | [], _, host, c => (.inr host, c)
  | h :: hs, i, host, c =>
    match h c.Data host with
    | ((host1, none), d) =>
      Conn.runConnectHandlers hs (i + 1) host1 { c.log (.connectHook i host) with Data := d }
    | ((_, some err), d) =>
      let c1 := { c.log (.connectHook i host) with Data := d }
      if err = .ErrConnectionNotAllowedByRuleset then
        (.inl (.ret none), (writeCommandErrorReply c1 repConnectionNotAllowedByRuleset).2)
      else
        (.inl (.ret (some err)), (writeCommandErrorReply c1 repGeneralSocksServerFailure).2)

/-- The method `ip.To4()` on a slice that is not nil; `none` is the nil result. -/
def To4 (ip : List Nat) : Option (List Nat) :=
  if ip.length = IPv4len then some ip
  else if ip.length = IPv6len ∧ (ip.take 10).all (· == 0) ∧ ip.getD 10 0 = 0xff ∧
      ip.getD 11 0 = 0xff then some ((ip.take 16).drop 12)
  else none

/-- The slice expression `s[lo:hi]` on a slice whose capacity is its length; `none` is
the panic for bounds out of range. -/
def sliceExpr (s : List Nat) (lo hi : Int) : Option (List Nat) :=
  if 0 ≤ lo ∧ lo ≤ hi ∧ hi ≤ s.length then some ((s.take hi.toNat).drop lo.toNat)
  else none

/-- The part of `commandConnect` from `net.SplitHostPort` to `r.WriteTo(c.rwc)`: the reply
for the dialed socket whose local address reads `localAddr`. `none` means that the
reply went out and the function goes on. On the nil slice of a failed `net.ParseIP`,
`To4` is nil and `ip[:net.IPv6len]` panics. -/
def Conn.writeConnectReply (env : Env) (localAddr : String) (c : Conn) :
    Option Outcome × Conn :=
  match env.SplitHostPort localAddr with
  | .error err =>
    (some (.ret (some err)), (writeCommandErrorReply c repGeneralSocksServerFailure).2)
  | .ok (host, port) =>
    let bound : Option (Nat × List Nat) :=
      match env.ParseIP host with
      | none => none
      | some ip =>
        match To4 ip with
        | some ipv4 => (sliceExpr ipv4 0 IPv4len).map fun a => (atypIPv4Address, a)
        | none => (sliceExpr ip 0 IPv6len).map fun a => (atypIPv6Address, a)
    match bound with
    | none => (some (.panic "slice bounds out of range"), c)
    | some (atyp, addr) =>
      match env.Atoi port with
      | .error err =>
        (some (.ret (some err)), (writeCommandErrorReply c repGeneralSocksServerFailure).2)
      | .ok prt =>
        let r : cmdResp :=
          { ver := verSocks5, rep := repSucceeded, rsv := rsvReserved, atyp := atyp,
            bnd_addr := addr, bnd_port := (prt % 65536).toNat }
        match r.WriteTo c with
        | ((_, some err), c1) =>
          (some (.ret (some err)), (writeCommandErrorReply c1 repGeneralSocksServerFailure).2)
        | ((_, none), c1) => (none, c1)

/-- The ASCII branch of `strings.ToLower` on one byte. -/
def asciiLower (c : Nat) : Nat := if 0x41 ≤ c ∧ c ≤ 0x5a then c + 32 else c

/-- The function `strings.ToLower` on the bytes of a string: byte by byte when every
byte is below 0x80, else through `env.MapToLower`. -/
def stringsToLower (env : Env) (s : List Nat) : List Nat :=
  if s.all (· < 0x80) then s.map asciiLower else env.MapToLower s

/-- The search of `strings.Index`, with `i` the offset of the text still to search. -/
def stringsIndexFrom (substr : List Nat) : List Nat → Nat → Int
  | [], i => if substr = [] then (i : Int) else -1
  | x :: xs, i =>
    if substr.isPrefixOf (x :: xs) then (i : Int) else stringsIndexFrom substr xs (i + 1)

/-- The function `strings.Index(s, substr)`: the first offset of `substr` in `s`, or -1. -/
def stringsIndex (s substr : List Nat) : Int := stringsIndexFrom substr s 0

/-- The bytes of the string `host:`. -/
def hostColon : List Nat := [0x68, 0x6f, 0x73, 0x74, 0x3a]

/-- The bytes of `[]byte("Host")`. -/
def hostWord : List Nat := [0x48, 0x6f, 0x73, 0x74]

/-- The block of `commandConnect` between its two comment rules ("SNI Censorship bypass
code"), run once the reply went out. `none` means that the function goes on to the
relay; `some` is how it ends: `return nil` on a failed read, or the panic of a slice
expression. -/
def Conn.splitter (env : Env) (c : Conn) : Option Outcome × Conn :=
  match Read 1 c.input with
  | ((_, some _), r) => (some (.ret none), { c with input := r })
  | ((bs, none), r) =>
    let firstByte := mkBuf 1 bs
    let c1 := { c with input := r }.log (.upWrite firstByte)
    let b := firstByte.headD 0
    if b = 0x16 then
      let rndHdrSz := env.Intn100.val + 80
      match Read rndHdrSz c1.input with
      | ((_, some _), r2) => (some (.ret none), { c1 with input := r2 })
      | ((bs2, none), r2) =>
        (none, { c1 with input := r2 }.log (.upWrite (mkBuf rndHdrSz bs2)))
    else if (0x41 ≤ b ∧ b ≤ 0x5a) ∨ (0x62 ≤ b ∧ b ≤ 0x7a) then
      match Read 512 c1.input with
      | ((_, some _), r2) => (some (.ret none), { c1 with input := r2 })
      | ((bs2, none), r2) =>
        let c2 := { c1 with input := r2 }
        let httpHdr := mkBuf 512 bs2
        let sz1 : Int := bs2.length
        let idx := stringsIndex (stringsToLower env httpHdr) hostColon
        match sliceExpr httpHdr 0 idx with
        | none => (some (.panic "slice bounds out of range"), c2)
        | some w1 =>
          let c3 := (c2.log (.upWrite w1)).log (.upWrite hostWord)
          match sliceExpr httpHdr (idx + 4) sz1 with
          | none => (some (.panic "slice bounds out of range"), c3)
          | some w3 => (none, c3.log (.upWrite w3))
    else (none, c1)

/-- The end of `commandConnect`: what it returns from the results of the two copy
loops. -/
def relayResult : Option Error × Option Error → Option Error
  | (some err, some err2) => some (.new ("socks5: " ++ err.Error ++ " / " ++ err2.Error))
  | (some err, none) => some err
  | (none, some err2) => some err2
  | (none, none) => none

/-- The reply code of `commandConnect` for an error of `net.Dial`. -/
def dialErrorRep : Error → Nat
  | .opError true _ => repHostUnreachable
  | _ => repGeneralSocksServerFailure

/-- The part of `commandConnect` after `defer conn.Close()`: the reply, the splitter and
the relay. The relay is one event; its two errors come from `env.Copy`. -/
def Conn.connected (env : Env) (localAddr : String) (c : Conn) : Outcome × Conn :=
  match c.writeConnectReply env localAddr with
  | (some out, c1) => (out, c1)
  | (none, c1) =>
    match c1.splitter env with
    | (some out, c2) => (out, c2)
    | (none, c2) => (.ret (relayResult env.Copy), c2.log .relay)

/-- The method `Conn.commandConnect`. The deferred `conn.Close()` runs at every exit
after a dial that succeeded, a panic included. -/
def Conn.commandConnect (env : Env) (srv : Server) (cm : cmd) (c : Conn) : Outcome × Conn :=
  match Conn.runConnectHandlers srv.connectHandlers 0 (cm.DestAddress env) c with
  | (.inl out, c1) => (out, c1)
  | (.inr host, c1) =>
    match env.Dial host with
    | .error err =>
      (.ret (some err), (writeCommandErrorReply (c1.log (.dial host)) (dialErrorRep err)).2)
    | .ok localAddr =>
      match (c1.log (.dial host)).connected env localAddr with
      | (out, c2) => (out, c2.log .upClose)

/-- The method `Conn.command`. -/
def Conn.command (env : Env) (srv : Server) (c : Conn) : Outcome × Conn :=
  match cmd.ReadFrom {} c.input with
  | ((_, some err), _, r) =>
    if err = .ErrAddressTypeNotSupported then
      (.ret (some err),
        (writeCommandErrorReply { c with input := r } repAddressTypeNotSupported).2)
    else (.ret (some err), { c with input := r })
  | ((_, none), cm, r) =>
    if cm.cmd = cmdConnect then Conn.commandConnect env srv cm { c with input := r }
    else
      match writeCommandErrorReply { c with input := r } repComandNotSupported with
      | (err, c1) => (.ret err, c1)

/-! ## The text of an address (`net.IP.String` of the Go library, `net/ip.go`) -/

/-- The function `appendHex` of `net/ip.go`: the hexadecimal digits of `i`, lower case,
without leading zeros, appended to `dst`. -/
def appendHex (dst : List Char) (i : Nat) : List Char :=
  if i = 0 then dst ++ ['0']
  else
    [7, 6, 5, 4, 3, 2, 1, 0].foldl
      (fun d j => if i / 16 ^ j > 0 then d ++ [Nat.digitChar (i / 16 ^ j % 16)] else d) dst

/-- The function `hexString` of `net/ip.go`: two hexadecimal digits for each byte. -/
def hexString (b : List Nat) : List Char :=
  (b.map fun tn => [Nat.digitChar (tn / 16 % 16), Nat.digitChar (tn % 16)]).flatten

/-- The inner loop of `IP.String`, `for j < IPv6len && p[j] == 0 && p[j+1] == 0 { j += 2 }`,
with `z j` the test `p[j] == 0 && p[j+1] == 0`: the value of `j` after the loop. Eight
turns exhaust the sixteen bytes. -/
def zeroRunEnd (z : Nat → Bool) : Nat → Nat → Nat
  | 0, j => j
  | fuel + 1, j => if j < IPv6len ∧ z j = true then zeroRunEnd z fuel (j + 2) else j

/-- The loop of `IP.String` that finds the longest run of zeros, from the index `i`
with the best run `(e0, e1)` so far; `i = j` in its body is followed by the `i += 2`
of the `for`. -/
def longestZeroRun (z : Nat → Bool) : Nat → Nat → Int × Int → Int × Int
  | 0, _, e => e
  | fuel + 1, i, (e0, e1) =>
    if i < IPv6len then
      if zeroRunEnd z 8 i > i ∧ ((zeroRunEnd z 8 i : Int) - i > e1 - e0) then
        longestZeroRun z fuel (zeroRunEnd z 8 i + 2) (i, zeroRunEnd z 8 i)
      else longestZeroRun z fuel (i + 2) (e0, e1)
    else (e0, e1)

/-- The run that `IP.String` prints as `::`: the longest run, unless it is a single
16-bit field (`e1-e0 <= 2`); `(-1, -1)` is no run. -/
def zeroRun (z : Nat → Bool) : Int × Int :=
  match longestZeroRun z 8 0 (-1, -1) with
  | (e0, e1) => if e1 - e0 ≤ 2 then (-1, -1) else (e0, e1)

/-- The loop of `IP.String` that prints the groups, from the index `i` with the bytes
`b` printed so far. -/
def printGroups (p : List Nat) (e0 e1 : Int) : Nat → Nat → List Char → List Char
  | 0, _, b => b
  | fuel + 1, i, b =>
    if i < IPv6len then
      if (i : Int) = e0 then
        if e1.toNat ≥ IPv6len then b ++ [':', ':']
        else
          printGroups p e0 e1 fuel (e1.toNat + 2)
            (appendHex (b ++ [':', ':'])
              (p.getD e1.toNat 0 * 256 + p.getD (e1.toNat + 1) 0))
      else
        printGroups p e0 e1 fuel (i + 2)
          (appendHex (if i > 0 then b ++ [':'] else b) (p.getD i 0 * 256 + p.getD (i + 1) 0))
    else b

/-- The method `IP.String` of the Go library: `<nil>` for the empty slice, the dotted
quad when `To4` is not nil (a 4-byte address or an IPv4-mapped 16-byte address), `?`
and the hexadecimal bytes for any other length but 16, else the eight groups with the
longest run of zero groups printed as `::`. -/
def netIPString (ip : List Nat) : String :=
  if ip.length = 0 then "<nil>"
  else
    match To4 ip with
    | some p4 =>
      toString (p4.getD 0 0) ++ "." ++ toString (p4.getD 1 0) ++ "." ++
        toString (p4.getD 2 0) ++ "." ++ toString (p4.getD 3 0)
    | none =>
      if ip.length ≠ IPv6len then String.mk ('?' :: hexString ip)
      else
        String.mk (printGroups ip
          (zeroRun fun j => decide (ip.getD j 0 = 0 ∧ ip.getD (j + 1) 0 = 0)).1
          (zeroRun fun j => decide (ip.getD j 0 = 0 ∧ ip.getD (j + 1) 0 = 0)).2 8 0 [])

/-! ## Vocabulary of the specification -/

/-- The wire bytes of a request (or of a reply, with `rep` for `cmd`): version 5, the
command, the reserved byte, the address type, the address (after its length byte for a
domain name) and the port, high byte first. -/
def frameBytes (b1 rsv aty : Nat) (addr : List Nat) (ph pl : Nat) : List Nat :=
  [0x05, b1, rsv, aty] ++ (if aty = atypDomainName then [addr.length] else []) ++ addr ++
    [ph, pl]

/-- The address has the length its type mandates: 4 bytes, a length-prefixed domain, or
16 bytes. -/
def addrShape (aty : Nat) (addr : List Nat) : Prop :=
  (aty = atypIPv4Address ∧ addr.length = 4) ∨ aty = atypDomainName ∨
    (aty = atypIPv6Address ∧ addr.length = 16)

instance (aty : Nat) (addr : List Nat) : Decidable (addrShape aty addr) := by
  unfold addrShape; infer_instance


/-- The text `host:`, whatever the case of its letters, stands at offset `i` of `p`. -/
def hostColonAt (p : List Nat) (i : Nat) : Prop :=
  hostColon <+: (p.map asciiLower).drop i

instance (p : List Nat) (i : Nat) : Decidable (hostColonAt p i) := by
  unfold hostColonAt; infer_instance


/-- Whether the next call of `c.rwc.Write` succeeds, from the results to come. -/
def nextWriteOk : List (Option String) → Bool
  | some _ :: _ => false
  | _ => true

/-! ## Sample values -/

/-- A network in which every dial succeeds from the local address `127.0.0.1:54321`. -/
def sampleEnv : Env where
  IPString := netIPString
  Dial := fun _ => .ok "127.0.0.1:54321"
  SplitHostPort := fun _ => .ok ("127.0.0.1", "54321")
  ParseIP := fun _ => some [0, 0, 0, 0, 0, 0, 0, 0, 0, 0, 0xff, 0xff, 127, 0, 0, 1]
  Atoi := fun _ => .ok 54321
  Intn100 := 0
  MapToLower := fun s => s
  Copy := (none, none)

/-- The request `CONNECT 127.0.0.1:80`, parsed. -/
def sampleRequest : cmd :=
  { ver := 0x05, cmd := 0x01, rsv := 0x00, atyp := 0x01, dst_addr := [127, 0, 0, 1],
    dst_port := 80 }

/-- The bytes of `GET / HTTP/1.1\r\nHost: example.com\r\n\r\n`. -/
def httpRequest : List Nat :=
  [0x47, 0x45, 0x54, 0x20, 0x2f, 0x20, 0x48, 0x54, 0x54, 0x50, 0x2f, 0x31, 0x2e, 0x31, 0x0d,
   0x0a, 0x48, 0x6f, 0x73, 0x74, 0x3a, 0x20, 0x65, 0x78, 0x61, 0x6d, 0x70, 0x6c, 0x65, 0x2e,
   0x63, 0x6f, 0x6d, 0x0d, 0x0a, 0x0d, 0x0a]

/-- A server with both authorizers: no-auth refuses every client with
`ErrAuthenticationFailed`, username/password accepts `a` with password `b`. -/
def sampleServer : Server where
  AuthNoAuthenticationRequiredCallback := some fun d => (some .ErrAuthenticationFailed, d)
  AuthUsernamePasswordCallback := some fun d u p =>
    if u = [0x61] ∧ p = [0x62] then (none, some "a") else (some .ErrAuthenticationFailed, d)

/-- The reply to a CONNECT served from `127.0.0.1:54321`. -/
def sampleReply : cmdResp :=
  { ver := 0x05, rep := 0x00, rsv := 0x00, atyp := 0x01, bnd_addr := [127, 0, 0, 1],
    bnd_port := 54321 }

/-- A server with three connect hooks: the first rewrites every host to
`example.org:80`, the second refuses `example.org:80` by ruleset, the third agrees. -/
def sampleHookServer : Server where
  connectHandlers :=
    [fun d _ => ((goString "example.org:80", none), d),
     fun d host =>
      if host = goString "example.org:80" then
        ((host, some .ErrConnectionNotAllowedByRuleset), d)
      else ((host, none), d),
     fun d host => ((host, none), d)]

/-- The bytes of the banner `SSH-2.0-OpenSSH_8.9\r\n`. -/
def sshBanner : List Nat :=
  [0x53, 0x53, 0x48, 0x2d, 0x32, 0x2e, 0x30, 0x2d, 0x4f, 0x70, 0x65, 0x6e, 0x53, 0x53, 0x48,
   0x5f, 0x38, 0x2e, 0x39, 0x0d, 0x0a]

/-- A network in which the dialed socket has a link-local IPv6 local address with a zone,
`[fe80::2%eth0]:54321`: `net.SplitHostPort` gives the host `fe80::2%eth0`, which
`net.ParseIP` does not accept (it returns nil on a zone). -/
def zoneEnv : Env where
  IPString := netIPString
  Dial := fun _ => .ok "[fe80::2%eth0]:54321"
  SplitHostPort := fun _ => .ok ("fe80::2%eth0", "54321")
  ParseIP := fun _ => none
  Atoi := fun _ => .ok 54321
  Intn100 := 0
  MapToLower := fun s => s
  Copy := (none, none)

/-- The request `CONNECT printer.local:80`, parsed. -/
def zoneRequest : cmd :=
  { ver := 0x05, cmd := 0x01, rsv := 0x00, atyp := 0x03,
    dst_addr := [0x70, 0x72, 0x69, 0x6e, 0x74, 0x65, 0x72, 0x2e, 0x6c, 0x6f, 0x63, 0x61, 0x6c],
    dst_port := 80 }

/-- A server with two connect hooks that agree: the first rewrites every host to
`example.org:80` and leaves the datum `seen`, the second returns the host it gets. -/
def agreeHookServer : Server where
  connectHandlers :=
    [fun _ _ => ((goString "example.org:80", none), some "seen"),
     fun d host => ((host, none), d)]

/-- An event on one of the two sockets of a dialed connection: a write to the client, a
write to the upstream, the relay, or the close of the upstream socket. -/
def isSocketEvent : Event → Bool
  | .write _ _ => true
  | .upWrite _ => true
  | .relay => true
  | .upClose => true
  | _ => false

/-- The connection `c1` comes from `c` by events on the two sockets only. -/
def Conn.ExtendsSock (c c1 : Conn) : Prop :=
  ∃ es, c1.trace = c.trace ++ es ∧ ∀ e ∈ es, isSocketEvent e = true

/-! ## Serving one connection -/

/-- The loop of `Conn.close` over `c.server.closeHandlers`, from the handler of index
`i` on: `h.HandleClose(c)` is called on the connection as the handler before it left
it. Nothing recovers a panic of a handler: it ends the loop, and `Conn.close`, there.
`ret none` is the end of the loop. -/
def Conn.runCloseHandlers :
    List (Socks5.Data → Option String × Socks5.Data) → Nat → Conn → Outcome × Conn
  | [], _, c => (.ret none, c)
  | h :: hs, i, c =>
    match h c.Data with
    | (some msg, d) => (.panic msg, { c.log (.closeHook i) with Data := d })
    | (none, d) => Conn.runCloseHandlers hs (i + 1) { c.log (.closeHook i) with Data := d }

/-- The method `Conn.close`: the close handlers in order, then `c.rwc.Close()`, which a
panic of a handler does not reach. The socket is not nil here: only `close` sets it to
nil and `serve` calls `close` once. `ret none` is the return of the method. -/
def Conn.close (srv : Server) (c : Conn) : Outcome × Conn :=
  match Conn.runCloseHandlers srv.closeHandlers 0 c with
  | (.panic msg, c1) => (.panic msg, c1)
  | (.ret _, c1) => (.ret none, c1.log .rwcClose)

/-- The body of `Conn.serve` before its deferred function: the handshake, then the
command when the handshake returned nil. A panic ends the body where it happens. -/
def Conn.serveBody (env : Env) (srv : Server) (c : Conn) : Outcome × Conn :=
  match c.handshake srv with
  | (.ret none, c1) => c1.command env srv
  | (out, c1) => (out, c1)

/-- The method `Conn.serve`: the body, then the deferred function, which recovers a
panic of the body (it only logs it) and calls `c.close()`. A panic inside `c.close()`
comes after the `recover()` and leaves `serve` as a panic. `ret none` is the return
of the method. -/
def Conn.serve (env : Env) (srv : Server) (c : Conn) : Outcome × Conn :=
  ((c.serveBody env srv).2).close srv

/-- An event of `Conn.close`: a close handler or the close of the client socket. -/
def isCloseEvent : Event → Bool
  | .closeHook _ => true
  | .rwcClose => true
  | _ => false

/-- The connection `c1` comes from `c` by events that are not events of `Conn.close`. -/
def Conn.ExtendsOpen (c c1 : Conn) : Prop :=
  ∃ es, c1.trace = c.trace ++ es ∧ ∀ e ∈ es, isCloseEvent e = false

/-- A server with two close handlers that return: the first leaves the datum `first`,
the second adds `, second` to the datum it finds. It accepts every client without
authentication. -/
def sampleCloseServer : Server where
  AuthNoAuthenticationRequiredCallback := some fun d => (none, d)
  closeHandlers :=
    [fun _ => (none, some "first"),
     fun d => (none, d.map fun s => s ++ ", second")]

/-- A server with two close handlers: the first panics, the second returns and leaves
the datum `second`. -/
def panicCloseServer : Server where
  closeHandlers :=
    [fun d => (some "close handler failed", d),
     fun _ => (none, some "second")]

/-- A client that offers method 0x00 and then asks for `CONNECT printer.local:80`. -/
def zoneClient : Conn :=
  { input := [[0x05, 0x01, 0x00],
      [0x05, 0x01, 0x00, 0x03, 13, 0x70, 0x72, 0x69, 0x6e, 0x74, 0x65, 0x72, 0x2e, 0x6c, 0x6f,
       0x63, 0x61, 0x6c, 0x00, 0x50]] }

/-! ## The accept loop of `Server.ListenAndServe` -/

/-- What one call of `l.Accept()` returns: a connection, a `net.Error` that is
temporary, or any other error. -/
inductive AcceptResult where
  | conn
  | temporary
  | fatal (err : Error)
  deriving DecidableEq, Repr

/-- What the accept loop does: `time.Sleep(d)` with `d` in nanoseconds, `go c.serve()`
on a new connection, and the deferred `l.Close()`. -/
inductive LoopEvent where
  | sleep (d : Int)
  | serve
  | listenerClose
  deriving DecidableEq, Repr

/-- The constant `time.Millisecond`, in nanoseconds. -/
def Millisecond : Int := 1000000

/-- The constant `time.Second`, in nanoseconds. -/
def Second : Int := 1000000000

/-- The value of an `int64` (a `time.Duration`) after an arithmetic operation with the
exact result `x`. -/
def wrapInt64 (x : Int) : Int := (x + 2 ^ 63) % 2 ^ 64 - 2 ^ 63

/-- The new `tempDelay` on a temporary accept error: 5 ms from zero, else the double,
and at most one second. -/
def nextTempDelay (tempDelay : Int) : Int :=
  let d := if tempDelay = 0 then wrapInt64 (5 * Millisecond) else wrapInt64 (tempDelay * 2)
  if d > wrapInt64 (1 * Second) then wrapInt64 (1 * Second) else d

/-- The state of `ListenAndServe`: the variable `tempDelay`, the events so far, and the
error it returned, if it has returned. -/
structure LoopState where
  tempDelay : Int := 0
  events : List LoopEvent := []
  returned : Option Error := none
  deriving DecidableEq, Repr

/-- One turn of the `for` loop of `ListenAndServe` on the result of `l.Accept()`.
`srv.newConn` has no failing path. -/
def acceptStep (s : LoopState) (a : AcceptResult) : LoopState :=
  match s.returned with
  | some _ => s
  | none =>
    match a with
    | .temporary =>
      { s with
        tempDelay := nextTempDelay s.tempDelay
        events := s.events ++ [.sleep (nextTempDelay s.tempDelay)] }
    | .fatal err => { s with events := s.events ++ [.listenerClose], returned := some err }
    | .conn => { s with tempDelay := 0, events := s.events ++ [.serve] }

/-- The method `Server.ListenAndServe` on the result of `net.Listen` and the results of
the calls of `l.Accept()` so far. `returned = none` means that the loop is at its next
`l.Accept()`. -/
def ListenAndServe (listen : Option Error) (accepts : List AcceptResult) : LoopState :=
  match listen with
  | some err => { returned := some err }
  | none => accepts.foldl acceptStep {}

/-- The delay of the specification after the `k`-th temporary error in a row:
`min(5 ms * 2^(k-1), 1 s)`, in nanoseconds. -/
def backoffDelay (k : Nat) : Int := min (5000000 * 2 ^ (k - 1)) 1000000000

/-! ## The canonical text of an IPv6 address (RFC 5952) -/

/-- The eight 16-bit groups of a 16-byte address. -/
def ipv6Groups (a : List Nat) : List Nat :=
  (List.range 8).map fun k => a.getD (2 * k) 0 * 256 + a.getD (2 * k + 1) 0

/-- The number of zero groups in a row from the group `s` on. -/
def zeroGroupsFrom (zg : List Bool) (s : Nat) : Nat :=
  ((zg.drop s).takeWhile id).length

/-- The run of zero groups that the canonical text shortens to `::`, as its first group
and its length: the longest run, the first one among equals, and only a run of two
groups or more. -/
def canonicalRun (zg : List Bool) : Option (Nat × Nat) :=
  let best := (List.range 8).foldl
    (fun (b : Nat × Nat) s => if b.2 < zeroGroupsFrom zg s then (s, zeroGroupsFrom zg s) else b)
    (0, 0)
  if 2 ≤ best.2 then some best else none

/-- The hexadecimal digits of a group: lower case, no leading zeros. -/
def hexGroup (v : Nat) : List Char := appendHex [] v

/-- The canonical text of a 16-byte address: the groups in hexadecimal with `:` between
them, and `::` for the run of `canonicalRun`. -/
def canonicalIPv6 (a : List Nat) : String :=
  match canonicalRun ((ipv6Groups a).map fun v => decide (v = 0)) with
  | none => String.mk ([':'].intercalate ((ipv6Groups a).map hexGroup))
  | some (s, n) =>
    String.mk ([':'].intercalate (((ipv6Groups a).take s).map hexGroup) ++ [':', ':'] ++
      [':'].intercalate (((ipv6Groups a).drop (s + n)).map hexGroup))

/-- The decimal text of a number: its digits in base ten, the most significant first,
and `0` for zero. -/
def decimal (n : Nat) : String :=
  if n = 0 then "0" else String.mk ((Nat.digits 10 n).reverse.map Nat.digitChar)

/-- The dotted quad `a.b.c.d` of four bytes. -/
def dottedQuad (a b c d : Nat) : String :=
  String.intercalate "." [decimal a, decimal b, decimal c, decimal d]

/-- The host that the specification gives for a parsed request, as a Go string: the
text of the dotted quad of the four address bytes, the address bytes themselves
(raw bytes as text), or the canonical text of the 16 address bytes. -/
def specHost (c : cmd) : List Nat :=
  if c.atyp = atypIPv4Address then
    goString (dottedQuad (c.dst_addr.getD 0 0) (c.dst_addr.getD 1 0) (c.dst_addr.getD 2 0)
      (c.dst_addr.getD 3 0))
  else if c.atyp = atypDomainName then c.dst_addr
  else goString (canonicalIPv6 c.dst_addr)

/-- The run of the canonical text in the terms of `IP.String`: the byte offsets of its
start and of its end, or `(-1, -1)` for no run. -/
def runBytes : Option (Nat × Nat) → Int × Int
  | none => (-1, -1)
  | some (s, n) => ((2 * s : Nat), (2 * (s + n) : Nat))

/-- The run lies within the eight groups and has two groups at least. -/
def runFits : Option (Nat × Nat) → Bool
  | none => true
  | some (s, n) => decide (s + n ≤ 8) && decide (2 ≤ n)

/-- The address is IPv4-mapped: ten zero bytes, `ff ff`, then the four bytes of an IPv4
address. -/
def ipv4Mapped (a : List Nat) : Prop :=
  a.take 12 = [0, 0, 0, 0, 0, 0, 0, 0, 0, 0, 0xff, 0xff]

instance (a : List Nat) : Decidable (ipv4Mapped a) := by
  unfold ipv4Mapped; infer_instance

/-- The host of `cmd.DestAddress` as the code has it: that of the specification, but the
dotted quad of the last four bytes for an IPv4-mapped IPv6 address. -/
def destHost (c : cmd) : List Nat :=
  if c.atyp = atypIPv6Address ∧ ipv4Mapped c.dst_addr then
    goString (dottedQuad (c.dst_addr.getD 12 0) (c.dst_addr.getD 13 0) (c.dst_addr.getD 14 0)
      (c.dst_addr.getD 15 0))
  else specHost c

/-- The network of `sampleEnv`, whose address text is that of the Go library. -/
def goEnv : Env := { sampleEnv with IPString := netIPString }

/-- The request `CONNECT [::ffff:1.2.3.4]:80`, parsed. -/
def mappedRequest : cmd :=
  { ver := 0x05, cmd := 0x01, rsv := 0x00, atyp := 0x04,
    dst_addr := [0, 0, 0, 0, 0, 0, 0, 0, 0, 0, 0xff, 0xff, 1, 2, 3, 4], dst_port := 80 }

/-- The request `CONNECT é:80`, parsed: the domain name is the two bytes `c3 a9`, the
UTF-8 encoding of `é`. -/
def accentRequest : cmd :=
  { ver := 0x05, cmd := 0x01, rsv := 0x00, atyp := 0x03, dst_addr := [0xc3, 0xa9],
    dst_port := 80 }

/-- The request `CONNECT [2001:db8::1]:443`, parsed. -/
def ipv6Request : cmd :=
  { ver := 0x05, cmd := 0x01, rsv := 0x00, atyp := 0x04,
    dst_addr := [0x20, 0x01, 0x0d, 0xb8, 0, 0, 0, 0, 0, 0, 0, 0, 0, 0, 0, 1], dst_port := 443 }

/-! ## Lemmas on the byte stream and the codec -/

theorem mkBuf_full (n : Nat) (bs : List Nat) (h : bs.length = n) : mkBuf n bs = bs := by
  simp [mkBuf, h]

theorem ReadFull_flatten (r : Reader) :
    ∀ (k : Nat) (xs rest : List Nat), r.flatten = xs ++ rest → xs.length = k →
      ∃ r1, ReadFull k r = ((xs, none), r1) ∧ r1.flatten = rest := by
  induction r with
  | nil =>
    intro k xs rest h hk
    simp at h
    obtain ⟨rfl, rfl⟩ := h
    simp at hk
    subst hk
    exact ⟨[], by simp [ReadFull], rfl⟩
  | cons c cs ih =>
    intro k xs rest h hk
    simp only [List.flatten_cons] at h
    by_cases h0 : k = 0
    · subst h0
      have : xs = [] := List.length_eq_zero.mp hk
      subst this
      refine ⟨c :: cs, by simp [ReadFull], ?_⟩
      simpa using h
    · by_cases hlt : k < c.length
      · refine ⟨c.drop k :: cs, ?_, ?_⟩
        · have hx : xs = c.take k := by
            have := congrArg (List.take k) h
            rw [List.take_append_of_le_length (le_of_lt hlt), List.take_left' hk] at this
            exact this.symm
          simp [ReadFull, h0, hlt, hx]
        · have := congrArg (List.drop k) h
          rw [List.drop_append_of_le_length (le_of_lt hlt), List.drop_left' hk] at this
          simpa using this
      · have hle : c.length ≤ k := Nat.le_of_not_lt hlt
        have hx : xs = c ++ xs.drop c.length := by
          have := congrArg (List.take c.length) h
          rw [List.take_left, List.take_append_of_le_length (by omega)] at this
          conv_lhs => rw [← List.take_append_drop c.length xs]
          rw [← this]
        have hcs : cs.flatten = xs.drop c.length ++ rest := by
          have := congrArg (List.drop c.length) h
          rw [List.drop_left, List.drop_append_of_le_length (by omega)] at this
          exact this
        obtain ⟨r1, hr1, hfl⟩ := ih (k - c.length) (xs.drop c.length) rest hcs (by simp [hk])
        refine ⟨r1, ?_, hfl⟩
        rw [ReadFull]
        simp only [h0, hlt, if_false, hr1]
        rw [← hx]
        simp

theorem binaryReadByte_flatten (r : Reader) (b : Nat) (rest : List Nat)
    (h : r.flatten = b :: rest) :
    ∃ r1, binaryReadByte r = (.ok b, r1) ∧ r1.flatten = rest := by
  obtain ⟨r1, h1, h2⟩ := ReadFull_flatten r 1 [b] rest (by simpa using h) rfl
  exact ⟨r1, by simp [binaryReadByte, h1], h2⟩

theorem binaryReadUint16_flatten (r : Reader) (a b : Nat) (rest : List Nat)
    (h : r.flatten = a :: b :: rest) :
    ∃ r1, binaryReadUint16 r = (.ok (a * 256 + b), r1) ∧ r1.flatten = rest := by
  obtain ⟨r1, h1, h2⟩ := ReadFull_flatten r 2 [a, b] rest (by simpa using h) rfl
  exact ⟨r1, by simp [binaryReadUint16, h1], h2⟩

theorem header_ReadFrom_flatten (h : header) (r : Reader) (methods rest : List Nat)
    (hr : r.flatten = 0x05 :: methods.length :: (methods ++ rest)) :
    ∃ r1, header.ReadFrom h r =
        ((2 + methods.length, none), { ver := 0x05, methods := methods }, r1) ∧
      r1.flatten = rest := by
  obtain ⟨ra, ha, hra⟩ := binaryReadByte_flatten r _ _ hr
  obtain ⟨rb, hb, hrb⟩ := binaryReadByte_flatten ra _ _ hra
  obtain ⟨rc, hc, hrc⟩ := ReadFull_flatten rb methods.length methods rest hrb rfl
  refine ⟨rc, ?_, hrc⟩
  simp [header.ReadFrom, ha, hb, hc, verSocks5, mkBuf_full]

theorem userpass_ReadFrom_flatten (up : userpass) (r : Reader) (uname passwd rest : List Nat)
    (hr : r.flatten =
      0x01 :: uname.length :: (uname ++ passwd.length :: (passwd ++ rest))) :
    ∃ r1, userpass.ReadFrom up r =
        ((2 + uname.length + 1 + passwd.length, none),
          { ver := 0x01, uname := uname, passwd := passwd }, r1) ∧
      r1.flatten = rest := by
  obtain ⟨ra, ha, hra⟩ := binaryReadByte_flatten r _ _ hr
  obtain ⟨rb, hb, hrb⟩ := binaryReadByte_flatten ra _ _ hra
  obtain ⟨rc, hc, hrc⟩ := ReadFull_flatten rb uname.length uname _ hrb rfl
  obtain ⟨rd, hd, hrd⟩ := binaryReadByte_flatten rc _ _ hrc
  obtain ⟨re, he, hre⟩ := ReadFull_flatten rd passwd.length passwd rest hrd rfl
  refine ⟨re, ?_, hre⟩
  simp [userpass.ReadFrom, ha, hb, hc, hd, he, authUsernamePasswordVersion, mkBuf_full]

theorem cmd_readAddrPort_flatten (c : cmd) (n : Nat) (r : Reader) (addr rest : List Nat)
    (ph pl : Nat) (hr : r.flatten = addr ++ ph :: pl :: rest) :
    ∃ r1, c.readAddrPort n addr.length r =
        ((n + addr.length + 2, none),
          { c with dst_addr := addr, dst_port := ph * 256 + pl }, r1) ∧
      r1.flatten = rest := by
  obtain ⟨ra, ha, hra⟩ := ReadFull_flatten r addr.length addr _ hr rfl
  obtain ⟨rb, hb, hrb⟩ := binaryReadUint16_flatten ra _ _ _ hra
  refine ⟨rb, ?_, hrb⟩
  simp [cmd.readAddrPort, ha, hb, mkBuf_full]

theorem cmd_ReadFrom_flatten (c : cmd) (r : Reader) (b1 rsv aty ph pl : Nat)
    (addr rest : List Nat) (hshape : addrShape aty addr)
    (hr : r.flatten = frameBytes b1 rsv aty addr ph pl ++ rest) :
    ∃ r1, cmd.ReadFrom c r =
        (((frameBytes b1 rsv aty addr ph pl).length, none),
          { ver := 0x05, cmd := b1, rsv := rsv, atyp := aty, dst_addr := addr,
            dst_port := ph * 256 + pl }, r1) ∧
      r1.flatten = rest := by
  have hr1 : r.flatten = 0x05 :: b1 :: rsv :: aty ::
      ((if aty = atypDomainName then [addr.length] else []) ++ (addr ++ ph :: pl :: rest)) := by
    simp [hr, frameBytes]
  obtain ⟨ra, ha, hra⟩ := binaryReadByte_flatten r _ _ hr1
  obtain ⟨rb, hb, hrb⟩ := binaryReadByte_flatten ra _ _ hra
  obtain ⟨rc, hc, hrc⟩ := binaryReadByte_flatten rb _ _ hrb
  obtain ⟨rd, hd, hrd⟩ := binaryReadByte_flatten rc _ _ hrc
  rcases hshape with ⟨h4, hlen⟩ | h3 | ⟨h6, hlen⟩
  · subst h4
    simp only [atypIPv4Address, atypDomainName, show (1 : Nat) ≠ 3 by decide, if_false,
      List.nil_append] at hrd
    obtain ⟨re, he, hre⟩ := cmd_readAddrPort_flatten
      { c with ver := 0x05, cmd := b1, rsv := rsv, atyp := 0x01 } 4 rd addr rest ph pl hrd
    refine ⟨re, ?_, hre⟩
    rw [hlen] at he
    simp [cmd.ReadFrom, ha, hb, hc, hd, verSocks5, atypIPv4Address, IPv4len, he, frameBytes,
      atypDomainName, hlen]
  · subst h3
    simp only [if_true, List.singleton_append] at hrd
    obtain ⟨rl, hl, hrl⟩ := binaryReadByte_flatten rd _ _ hrd
    obtain ⟨re, he, hre⟩ := cmd_readAddrPort_flatten
      { c with ver := 0x05, cmd := b1, rsv := rsv, atyp := 0x03 } 5 rl addr rest ph pl hrl
    refine ⟨re, ?_, hre⟩
    simp [cmd.ReadFrom, ha, hb, hc, hd, hl, verSocks5, atypIPv4Address, atypDomainName, he,
      frameBytes]
    omega
  · subst h6
    simp only [atypIPv6Address, atypDomainName, show (4 : Nat) ≠ 3 by decide, if_false,
      List.nil_append] at hrd
    obtain ⟨re, he, hre⟩ := cmd_readAddrPort_flatten
      { c with ver := 0x05, cmd := b1, rsv := rsv, atyp := 0x04 } 4 rd addr rest ph pl hrd
    refine ⟨re, ?_, hre⟩
    rw [hlen] at he
    simp [cmd.ReadFrom, ha, hb, hc, hd, verSocks5, atypIPv4Address, atypIPv6Address, IPv6len,
      he, frameBytes, atypDomainName, hlen]

/-! ## Lemmas on the splitter -/

theorem stringsIndexFrom_first (substr : List Nat) :
    ∀ (s : List Nat) (i k : Nat), substr <+: s.drop i →
      (∀ j < i, ¬ substr <+: s.drop j) → i ≤ s.length → substr ≠ [] →
      stringsIndexFrom substr s k = ((k + i : Nat) : Int) := by
  intro s
  induction s with
  | nil =>
    intro i k h _ _ hne
    simp at h
    exact absurd h hne
  | cons x xs ih =>
    intro i k h hmin hi hne
    cases i with
    | zero =>
      simp only [List.drop_zero] at h
      simp [stringsIndexFrom, List.isPrefixOf_iff_prefix, h]
    | succ i =>
      have h0 : ¬ substr <+: (x :: xs) := by simpa using hmin 0 (Nat.succ_pos i)
      have := ih i (k + 1) (by simpa using h)
        (fun j hj => by simpa using hmin (j + 1) (Nat.succ_lt_succ hj))
        (by simpa using hi) hne
      rw [stringsIndexFrom]
      simp only [List.isPrefixOf_iff_prefix, h0]
      simp [this]
      omega

theorem asciiLower_zero : asciiLower 0 = 0 := by decide

theorem map_asciiLower_mkBuf (n : Nat) (p : List Nat) :
    (mkBuf n p).map asciiLower = p.map asciiLower ++ List.replicate (n - p.length) 0 := by
  simp [mkBuf, asciiLower_zero]

theorem hostColon_padded (lp : List Nat) (n j : Nat) :
    hostColon <+: (lp ++ List.replicate n 0).drop j ↔ hostColon <+: lp.drop j := by
  constructor
  · intro h
    have h4 : (lp ++ List.replicate n 0)[j + 4]? = some 0x3a := by
      obtain ⟨t, ht⟩ := h
      have := congrArg (fun l => l[4]?) ht
      simp [hostColon] at this
      rw [← this]
    have hlt : j + 4 < lp.length := by
      by_contra hge
      rw [List.getElem?_append_right (by omega)] at h4
      rw [List.getElem?_replicate] at h4
      split at h4 <;> simp at h4
    have hd : (lp ++ List.replicate n 0).drop j = lp.drop j ++ List.replicate n 0 := by
      rw [List.drop_append_of_le_length (by omega)]
    rw [hd] at h
    exact List.prefix_of_prefix_length_le h (List.prefix_append _ _)
      (by simp [hostColon]; omega)
  · intro h
    have hlen : 5 ≤ (lp.drop j).length := by simpa [hostColon] using h.length_le
    have hd : (lp ++ List.replicate n 0).drop j = lp.drop j ++ List.replicate n 0 := by
      rw [List.drop_append_of_le_length (by simp at hlen; omega)]
    rw [hd]
    exact h.trans (List.prefix_append _ _)

theorem hostColonAt_bound (p : List Nat) (i : Nat) (h : hostColonAt p i) :
    i + 5 ≤ p.length := by
  have := h.length_le
  simp [hostColon] at this
  omega

theorem Read_length_le (n : Nat) (r r1 : Reader) (p : List Nat) (e : Option Error)
    (h : Read n r = ((p, e), r1)) : p.length ≤ n := by
  cases r with
  | nil =>
    simp only [Read, Prod.mk.injEq] at h
    obtain ⟨⟨hp, _⟩, _⟩ := h
    subst hp
    simp
  | cons c cs =>
    simp only [Read] at h
    split at h
    · simp only [Prod.mk.injEq] at h
      obtain ⟨⟨hp, _⟩, _⟩ := h
      subst hp
      assumption
    · simp only [Prod.mk.injEq] at h
      obtain ⟨⟨hp, _⟩, _⟩ := h
      subst hp
      simp

theorem sliceExpr_mkBuf (n : Nat) (p : List Nat) (lo hi : Nat) (h1 : lo ≤ hi)
    (h2 : hi ≤ p.length) (h3 : p.length ≤ n) :
    sliceExpr (mkBuf n p) (lo : Int) (hi : Int) = some ((p.take hi).drop lo) := by
  have : (mkBuf n p).length = n := by simp [mkBuf]; omega
  simp only [sliceExpr, this]
  rw [if_pos (by omega)]
  simp [mkBuf, List.take_append_of_le_length h2]

theorem splitter_http (env : Env) (c : Conn) (b : Nat) (p : List Nat) (r1 r2 : Reader)
    (i : Nat) (hfirst : Read 1 c.input = (([b], none), r1))
    (hb : (0x41 ≤ b ∧ b ≤ 0x5a) ∨ (0x62 ≤ b ∧ b ≤ 0x7a))
    (hread : Read 512 r1 = ((p, none), r2)) (hascii : ∀ x ∈ p, x < 0x80)
    (hi : hostColonAt p i) (hmin : ∀ j < i, ¬ hostColonAt p j) :
    c.splitter env = (none, { c with
      input := r2
      trace := c.trace ++ [.upWrite [b], .upWrite (p.take i), .upWrite hostWord,
        .upWrite (p.drop (i + 4))] }) := by
  have hp512 : p.length ≤ 512 := Read_length_le _ _ _ _ _ hread
  have hi5 := hostColonAt_bound p i hi
  have hb16 : b ≠ 0x16 := by
    intro h
    rw [h] at hb
    revert hb
    decide
  have hlow : stringsToLower env (mkBuf 512 p) =
      p.map asciiLower ++ List.replicate (512 - p.length) 0 := by
    rw [stringsToLower, if_pos, map_asciiLower_mkBuf]
    simp only [mkBuf, List.all_append, List.all_replicate, Bool.and_eq_true, List.all_eq_true,
      decide_eq_true_eq]
    refine ⟨hascii, ?_⟩
    simp
  have hidx : stringsIndex (stringsToLower env (mkBuf 512 p)) hostColon = (i : Int) := by
    rw [hlow, stringsIndex, stringsIndexFrom_first hostColon _ i 0]
    · simp
    · exact (hostColon_padded _ _ _).2 hi
    · intro j hj h
      exact hmin j hj ((hostColon_padded _ _ _).1 h)
    · simp; omega
    · decide
  have hs1 : sliceExpr (mkBuf 512 p) 0 (i : Int) = some (p.take i) := by
    simpa using sliceExpr_mkBuf 512 p 0 i (by omega) (by omega) hp512
  have hs2 : sliceExpr (mkBuf 512 p) ((i : Int) + 4) (p.length : Int) =
      some (p.drop (i + 4)) := by
    simpa using sliceExpr_mkBuf 512 p (i + 4) p.length (by omega) le_rfl hp512
  have hbuf : mkBuf 1 [b] = [b] := rfl
  simp [Conn.splitter, hfirst, hbuf, hb16, hb, hread, Conn.log, hidx, hs1, hs2]

/-! ## C1: the HTTP path of the splitter -/

theorem asciiLower_colon (x : Nat) (h : asciiLower x = 0x3a) : x = 0x3a := by
  unfold asciiLower at h
  split at h <;> omega

theorem hostColonAt_parts (p : List Nat) (i : Nat) (h : hostColonAt p i) :
    (∃ t, p.drop (i + 4) = 0x3a :: t) ∧
      (p.take i ++ hostWord ++ p.drop (i + 4)).map asciiLower = p.map asciiLower := by
  have hlen := hostColonAt_bound p i h
  obtain ⟨t, ht⟩ := h
  constructor
  · have hlt : i + 4 < p.length := by omega
    have h4 : (p.map asciiLower)[i + 4]? = some 0x3a := by
      have := congrArg (fun l => l[4]?) ht
      simp only [hostColon, List.getElem?_drop] at this
      rw [← this]
      simp
    rw [List.getElem?_map, List.getElem?_eq_getElem hlt] at h4
    simp only [Option.map_some', Option.some.injEq] at h4
    refine ⟨p.drop (i + 4 + 1), ?_⟩
    rw [← asciiLower_colon _ h4]
    exact List.drop_eq_getElem_cons hlt
  · have h1 : (p.map asciiLower).drop i = hostColon ++ t := ht.symm
    have h2 : ((p.map asciiLower).drop i).drop 4 = 0x3a :: t := by
      rw [h1]; rfl
    have h3 : (p.map asciiLower).drop (i + 4) = 0x3a :: t := by
      rw [← h2, List.drop_drop, Nat.add_comm]
    have h5 : p.map asciiLower =
        (p.map asciiLower).take i ++ (hostColon ++ t) := by
      rw [← h1, List.take_append_drop]
    rw [List.map_append, List.map_append, List.map_take, List.map_drop, h3]
    conv_rhs => rw [h5]
    simp [hostWord, hostColon, asciiLower]

/-- C1, as the code has it: when the first client byte is in the plaintext-HTTP letter
range and the read of at most 512 bytes that follows returns a prefix `p` of ASCII
bytes in which `host:` (in any letter case) first stands at offset `i`, then
`commandConnect` writes to the upstream, after the first byte and before the relay,
exactly `p[0:i]`, `Host` and `p[i+4:]`. The third write starts with the colon: the
concatenation is `p` with the four letters of `host` written as `Host`, and it is as
long as `p`. -/
theorem connect_http_splitter (env : Env) (srv : Server) (cm : cmd) (c c1 c2 : Conn)
    (host : List Nat) (la : String) (b : Nat) (p : List Nat) (r1 r2 : Reader) (i : Nat)
    (hhooks : Conn.runConnectHandlers srv.connectHandlers 0 (cm.DestAddress env) c =
      (.inr host, c1))
    (hdial : env.Dial host = .ok la)
    (hreply : (c1.log (.dial host)).writeConnectReply env la = (none, c2))
    (hfirst : Read 1 c2.input = (([b], none), r1))
    (hb : (0x41 ≤ b ∧ b ≤ 0x5a) ∨ (0x62 ≤ b ∧ b ≤ 0x7a))
    (hread : Read 512 r1 = ((p, none), r2)) (hascii : ∀ x ∈ p, x < 0x80)
    (hi : hostColonAt p i) (hmin : ∀ j < i, ¬ hostColonAt p j) :
    c.commandConnect env srv cm =
        (.ret (relayResult env.Copy), { c2 with
          input := r2
          trace := c2.trace ++ [.upWrite [b], .upWrite (p.take i), .upWrite hostWord,
            .upWrite (p.drop (i + 4)), .relay, .upClose] }) ∧
      (p.take i ++ hostWord ++ p.drop (i + 4)).length = p.length ∧
      (∃ t, p.drop (i + 4) = 0x3a :: t) ∧
      (p.take i ++ hostWord ++ p.drop (i + 4)).map asciiLower = p.map asciiLower := by
  have hlen := hostColonAt_bound p i hi
  refine ⟨?_, ?_, hostColonAt_parts p i hi⟩
  · simp only [Conn.commandConnect, hhooks, hdial, Conn.connected, hreply,
      splitter_http env c2 b p r1 r2 i hfirst hb hread hascii hi hmin]
    simp [Conn.log]
  · simp [hostWord]
    omega

theorem connect_http_splitter_witness :
    (Conn.commandConnect sampleEnv {} sampleRequest { input := [httpRequest] }).1 =
      .ret none ∧
    upstreamWrites
        (Conn.commandConnect sampleEnv {} sampleRequest { input := [httpRequest] }).2.trace =
      [[0x47], (httpRequest.drop 1).take 15, hostWord, (httpRequest.drop 1).drop 19] := by
  have h := connect_http_splitter sampleEnv {} sampleRequest { input := [httpRequest] }
    { input := [httpRequest] }
    { input := [httpRequest],
      trace := [.dial (goString "127.0.0.1:80"),
        .write [5, 0, 0, 1, 127, 0, 0, 1, 212, 49] true] }
    (goString "127.0.0.1:80") "127.0.0.1:54321" 0x47 (httpRequest.drop 1) [httpRequest.drop 1] [] 15
    rfl rfl rfl (by decide) (by decide) (by decide) (by decide) (by decide) (by decide)
  rw [h.1]
  decide

set_option maxRecDepth 100000 in
/-- C1 as stated fails on `GET / HTTP/1.1\r\nHost: example.com\r\n\r\n`: the read after
the first byte `G` returns the 36 bytes left, `host:` first stands at offset 15, and
the three writes after the first byte are `ET / HTTP/1.1\r\n`, `Host` and
`: example.com\r\n\r\n`. The colon is forwarded: the concatenation is not the prefix
with the five bytes of `Host:` replaced by `Host`. -/
theorem connect_http_splitter_keeps_colon :
    Read 1 [httpRequest] = (([0x47], none), [httpRequest.drop 1]) ∧
    Read 512 [httpRequest.drop 1] = ((httpRequest.drop 1, none), []) ∧
    hostColonAt (httpRequest.drop 1) 15 ∧
    (∀ j < 15, ¬ hostColonAt (httpRequest.drop 1) j) ∧
    upstreamWrites
        (Conn.commandConnect sampleEnv {} sampleRequest { input := [httpRequest] }).2.trace =
      [[0x47],
       [0x45, 0x54, 0x20, 0x2f, 0x20, 0x48, 0x54, 0x54, 0x50, 0x2f, 0x31, 0x2e, 0x31, 0x0d, 0x0a],
       [0x48, 0x6f, 0x73, 0x74],
       [0x3a, 0x20, 0x65, 0x78, 0x61, 0x6d, 0x70, 0x6c, 0x65, 0x2e, 0x63, 0x6f, 0x6d, 0x0d, 0x0a,
        0x0d, 0x0a]] ∧
    [0x45, 0x54, 0x20, 0x2f, 0x20, 0x48, 0x54, 0x54, 0x50, 0x2f, 0x31, 0x2e, 0x31, 0x0d, 0x0a] ++
        [0x48, 0x6f, 0x73, 0x74] ++
        [0x3a, 0x20, 0x65, 0x78, 0x61, 0x6d, 0x70, 0x6c, 0x65, 0x2e, 0x63, 0x6f, 0x6d, 0x0d, 0x0a,
         0x0d, 0x0a] ≠
      (httpRequest.drop 1).take 15 ++ hostWord ++ (httpRequest.drop 1).drop (15 + 5) := by
  decide

/-! ## C2: the TLS path of the splitter -/

/-- C2 at a short read: the first client byte is `0x16`, the buffer has `R = 80` bytes
and the read into it returns the three bytes `03 01 00`. The second write of
`commandConnect` to the upstream is the whole buffer, the three bytes read followed
by 77 zero bytes: its length is 80, not the number of bytes read. -/
theorem connect_tls_splitter_short_read :
    Read 1 [[0x16], [0x03, 0x01, 0x00]] = (([0x16], none), [[0x03, 0x01, 0x00]]) ∧
    sampleEnv.Intn100.val + 80 = 80 ∧
    Read 80 [[0x03, 0x01, 0x00]] = (([0x03, 0x01, 0x00], none), []) ∧
    upstreamWrites (Conn.commandConnect sampleEnv {} sampleRequest
        { input := [[0x16], [0x03, 0x01, 0x00]] }).2.trace =
      [[0x16], [0x03, 0x01, 0x00] ++ List.replicate 77 0] ∧
    ([0x03, 0x01, 0x00] ++ List.replicate 77 0).length = 80 := by
  decide

/-! ## C3, C4, C5, C7: the handshake -/

theorem clientWrites_append (a b : List Event) :
    clientWrites (a ++ b) = clientWrites a ++ clientWrites b := by
  induction a with
  | nil => rfl
  | cons e es ih => cases e <;> simp [clientWrites, ih]

theorem Conn.Write_snd (c : Conn) (bs : List Nat) :
    (c.Write bs).2 =
      { c with wres := c.wres.tail, trace := c.trace ++ [.write bs (nextWriteOk c.wres)] } := by
  rcases c with ⟨i, w, t, d⟩
  rcases w with _ | ⟨_ | m, w⟩ <;> simp [Conn.Write, nextWriteOk, Conn.log]

theorem Conn.Write_ok (c : Conn) (bs : List Nat) (h : nextWriteOk c.wres = true) :
    c.Write bs = ((bs.length, none),
      { c with wres := c.wres.tail, trace := c.trace ++ [.write bs true] }) := by
  rcases c with ⟨i, w, t, d⟩
  rcases w with _ | ⟨_ | m, w⟩ <;> simp_all [Conn.Write, nextWriteOk, Conn.log]

theorem nextWriteOk_of_take (w : List (Option String)) (k : Nat)
    (h : ∀ x ∈ w.take (k + 1), x = none) : nextWriteOk (w.drop k) = true := by
  rcases hd : w.drop k with _ | ⟨_ | m, t⟩
  · rfl
  · rfl
  · exfalso
    have hm : some m ∈ w.take (k + 1) := by
      have hk : k < w.length := by
        by_contra hge
        rw [List.drop_eq_nil_of_le (by omega)] at hd
        exact absurd hd (by simp)
      have : w[k] = some m := by
        have := List.drop_eq_getElem_cons hk
        rw [hd] at this
        exact (List.cons.inj this).1.symm
      rw [← this]
      exact List.mem_take_iff_getElem.mpr ⟨k, by omega, rfl⟩
    simpa using h _ hm

theorem bytesIndexByte_ne (b : List Nat) (x : Nat) : bytesIndexByte b x ≠ -1 ↔ x ∈ b := by
  unfold bytesIndexByte
  split
  · simp [*]
  · simp [*]

/-- C3: the greeting has version 5 and advertises both 0x00 and 0x02, both authorizers
are registered, the no-auth authorizer returns `ErrAuthenticationFailed`, the
username/password authorizer accepts the credentials of the well-formed frame that
follows, and the two writes succeed. Then `Conn.handshake` returns nil, and the writes
to the client are exactly `05 02` and `01 00`, after the no-auth authorizer and
around the username/password authorizer. -/
theorem handshake_fallback_userpass (srv : Server) (c : Conn)
    (cbN : Data → Option Error × Data)
    (cbU : Data → List Nat → List Nat → Option Error × Data)
    (methods uname passwd rest : List Nat)
    (hN : srv.AuthNoAuthenticationRequiredCallback = some cbN)
    (hU : srv.AuthUsernamePasswordCallback = some cbU)
    (hin : c.input.flatten = 0x05 :: methods.length ::
      (methods ++ 0x01 :: uname.length :: (uname ++ passwd.length :: (passwd ++ rest))))
    (h0 : 0x00 ∈ methods) (h2 : 0x02 ∈ methods)
    (hrej : (cbN c.Data).1 = some .ErrAuthenticationFailed)
    (hacc : (cbU (cbN c.Data).2 uname passwd).1 = none)
    (hw : ∀ w ∈ c.wres.take 2, w = none) :
    (c.handshake srv).1 = .ret none ∧
      (c.handshake srv).2.trace = c.trace ++ [.authNoAuth, .write [0x05, 0x02] true,
        .authUserPass uname passwd, .write [0x01, 0x00] true] ∧
      clientWrites (c.handshake srv).2.trace =
        clientWrites c.trace ++ [[0x05, 0x02], [0x01, 0x00]] ∧
      (c.handshake srv).2.input.flatten = rest := by
  obtain ⟨r1, hhead, hr1⟩ := header_ReadFrom_flatten {} c.input methods _ hin
  obtain ⟨r2, hup, hr2⟩ := userpass_ReadFrom_flatten {} r1 uname passwd rest hr1
  rcases hcb : cbN c.Data with ⟨e, d⟩
  rw [hcb] at hrej hacc
  simp only at hrej hacc
  subst hrej
  rcases hcu : cbU d uname passwd with ⟨e2, d2⟩
  rw [hcu] at hacc
  simp only at hacc
  subst hacc
  have hw1 : nextWriteOk c.wres = true := by
    simpa using nextWriteOk_of_take c.wres 0 (fun x hx => hw x (List.take_subset_take_left _ (by omega) hx))
  have hw2 : nextWriteOk c.wres.tail = true := by
    simpa using nextWriteOk_of_take c.wres 1 hw
  have hres : c.handshake srv = (.ret none,
      { input := r2, wres := c.wres.tail.tail,
        trace := c.trace ++ [.authNoAuth, .write [0x05, 0x02] true,
          .authUserPass uname passwd, .write [0x01, 0x00] true],
        Data := d2 }) := by
    simp only [Conn.handshake, hhead, hN, Option.isSome_some, true_and,
      bytesIndexByte_ne, h0, h2, authNoAuthenticationRequired, if_true,
      Conn.handshakeNoAuth, hcb, Conn.handshakeUserPassOrRefuse, hU, authUsernamePassword,
      Conn.handshakeUsernamePassword]
    simp [Conn.log, Conn.Write_ok, hw1, hw2, hup, hcu, verSocks5,
      authUsernamePasswordVersion, authUsernamePasswordStatusSuccess]
  rw [hres]
  refine ⟨rfl, rfl, ?_, hr2⟩
  simp [clientWrites_append, clientWrites]

theorem handshake_fallback_userpass_witness :
    (Conn.handshake sampleServer
        { input := [[0x05, 0x02, 0x00, 0x02], [0x01, 0x01, 0x61, 0x01, 0x62]] }).1 =
      .ret none ∧
    clientWrites (Conn.handshake sampleServer
        { input := [[0x05, 0x02, 0x00, 0x02], [0x01, 0x01, 0x61, 0x01, 0x62]] }).2.trace =
      [[0x05, 0x02], [0x01, 0x00]] := by
  have h := handshake_fallback_userpass sampleServer
    { input := [[0x05, 0x02, 0x00, 0x02], [0x01, 0x01, 0x61, 0x01, 0x62]] }
    (fun d => (some .ErrAuthenticationFailed, d))
    (fun d u p =>
      if u = [0x61] ∧ p = [0x62] then (none, some "a") else (some .ErrAuthenticationFailed, d))
    [0x00, 0x02] [0x61] [0x62] [] rfl rfl (by decide) (by decide) (by decide) rfl rfl
    (by decide)
  exact ⟨h.1, h.2.2.1⟩

/-- C4: the greeting has version 5. Either it advertises 0x00 and not 0x02 and the
no-auth authorizer returns `ErrAuthenticationFailed` (a username/password authorizer
may be registered or not), or no registered authorizer has its method advertised.
Then `Conn.handshake` writes exactly `05 FF` to the client and returns
`ErrAuthenticationFailed`. -/
theorem handshake_no_acceptable_method (srv : Server) (c : Conn) (methods rest : List Nat)
    (hin : c.input.flatten = 0x05 :: methods.length :: (methods ++ rest))
    (hcase :
      (∃ cbN, srv.AuthNoAuthenticationRequiredCallback = some cbN ∧
        (cbN c.Data).1 = some .ErrAuthenticationFailed ∧ 0x00 ∈ methods ∧ 0x02 ∉ methods) ∨
      ((srv.AuthNoAuthenticationRequiredCallback = none ∨ 0x00 ∉ methods) ∧
        (srv.AuthUsernamePasswordCallback = none ∨ 0x02 ∉ methods))) :
    (c.handshake srv).1 = .ret (some .ErrAuthenticationFailed) ∧
      clientWrites (c.handshake srv).2.trace = clientWrites c.trace ++ [[0x05, 0xFF]] ∧
      (c.handshake srv).2.input.flatten = rest := by
  obtain ⟨r1, hhead, hr1⟩ := header_ReadFrom_flatten {} c.input methods rest hin
  have hrefuse : ∀ x : Conn, (srv.AuthUsernamePasswordCallback = none ∨ 0x02 ∉ methods) →
      x.handshakeUserPassOrRefuse srv { ver := 0x05, methods := methods } =
        (.ret (some .ErrAuthenticationFailed), (x.Write [0x05, 0xFF]).2) := by
    intro x h
    have : ¬ (srv.AuthUsernamePasswordCallback.isSome = true ∧
        bytesIndexByte methods authUsernamePassword ≠ -1) := by
      rw [bytesIndexByte_ne]
      rintro ⟨h1, h2⟩
      rcases h with h | h
      · simp [h] at h1
      · exact h h2
    simp only [Conn.handshakeUserPassOrRefuse, this, if_false, verSocks5,
      authNoAcceptableMethods]
  rcases hcase with ⟨cbN, hN, hrej, h0, h2⟩ | ⟨hno, hup⟩
  · rcases hcb : cbN c.Data with ⟨e, d⟩
    rw [hcb] at hrej
    simp only at hrej
    subst hrej
    have hres : c.handshake srv = (.ret (some .ErrAuthenticationFailed),
        (({ c with input := r1, trace := c.trace ++ [.authNoAuth], Data := d } : Conn).Write
          [0x05, 0xFF]).2) := by
      simp only [Conn.handshake, hhead, hN, Option.isSome_some, true_and, bytesIndexByte_ne,
        h0, authNoAuthenticationRequired, if_true, Conn.handshakeNoAuth, hcb,
        hrefuse _ (Or.inr h2), Conn.log]
    rw [hres, Conn.Write_snd]
    refine ⟨rfl, ?_, hr1⟩
    simp [clientWrites_append, clientWrites]
  · have hfirst : ¬ (srv.AuthNoAuthenticationRequiredCallback.isSome = true ∧
        bytesIndexByte methods authNoAuthenticationRequired ≠ -1) := by
      rw [bytesIndexByte_ne]
      rintro ⟨h1, h2⟩
      rcases hno with h | h
      · simp [h] at h1
      · exact h h2
    have hres : c.handshake srv = (.ret (some .ErrAuthenticationFailed),
        (({ c with input := r1 } : Conn).Write [0x05, 0xFF]).2) := by
      simp only [Conn.handshake, hhead, hfirst, if_false, hrefuse _ hup]
    rw [hres, Conn.Write_snd]
    refine ⟨rfl, ?_, hr1⟩
    simp [clientWrites_append, clientWrites]

theorem handshake_no_acceptable_method_witness :
    (Conn.handshake sampleServer { input := [[0x05, 0x01, 0x00]] }).1 =
      .ret (some .ErrAuthenticationFailed) ∧
    clientWrites (Conn.handshake sampleServer { input := [[0x05, 0x01, 0x00]] }).2.trace =
      [[0x05, 0xFF]] := by
  have h := handshake_no_acceptable_method sampleServer { input := [[0x05, 0x01, 0x00]] }
    [0x00] [] (by decide)
    (Or.inl ⟨fun d => (some .ErrAuthenticationFailed, d), rfl, rfl, by decide, by decide⟩)
  exact ⟨h.1, h.2.1⟩

/-- C5 as stated fails: after `05 02`, a username/password frame whose version byte is
0x02 makes `Conn.handshakeUsernamePassword` write `01 01` and return the version
error of `userpass.ReadFrom`, which is not `ErrAuthenticationFailed`. -/
theorem userpass_failure_other_error :
    Conn.handshakeUsernamePassword sampleServer { input := [[0x02, 0x01, 0x61, 0x01, 0x62]] } =
      (.ret (some (.new
        "userpass.ReadFrom: unsupported USERNAME/PASSWORD authentication protocol version")),
        { input := [[0x01, 0x61, 0x01, 0x62]],
          trace := [.write [0x05, 0x02] true, .write [0x01, 0x01] true] }) ∧
    (Conn.handshakeUsernamePassword sampleServer
        { input := [[0x02, 0x01, 0x61, 0x01, 0x62]] }).1 ≠
      .ret (some .ErrAuthenticationFailed) := by
  decide

/-- C5, as the code has it: once `05 02` is written, when the username/password frame
cannot be read or has a version other than 0x01 (`userpass.ReadFrom` returns the
error `e`), or the frame is read and the authorizer returns the error `e`, then
`Conn.handshakeUsernamePassword` writes the status `01 01` and returns that same
error `e`. -/
theorem userpass_failure_status (srv : Server) (c : Conn) (e : Error)
    (hw : nextWriteOk c.wres = true)
    (hfail : (userpass.ReadFrom {} c.input).1.2 = some e ∨
      ((userpass.ReadFrom {} c.input).1.2 = none ∧
        ∃ cbU, srv.AuthUsernamePasswordCallback = some cbU ∧
          (cbU c.Data (userpass.ReadFrom {} c.input).2.1.uname
            (userpass.ReadFrom {} c.input).2.1.passwd).1 = some e)) :
    (c.handshakeUsernamePassword srv).1 = .ret (some e) ∧
      clientWrites (c.handshakeUsernamePassword srv).2.trace =
        clientWrites c.trace ++ [[0x05, 0x02], [0x01, 0x01]] := by
  rcases hread : userpass.ReadFrom {} c.input with ⟨⟨n, err⟩, up, r⟩
  rw [hread] at hfail
  simp only at hfail
  rcases hfail with herr | ⟨herr, cbU, hU, hcb⟩
  · subst herr
    simp [Conn.handshakeUsernamePassword, Conn.Write_ok, hw, hread, Conn.Write_snd,
      clientWrites_append, clientWrites, verSocks5, authUsernamePassword,
      authUsernamePasswordVersion, authUsernamePasswordStatusFailure]
  · subst herr
    rcases hcu : cbU c.Data up.uname up.passwd with ⟨e2, d2⟩
    rw [hcu] at hcb
    simp only at hcb
    subst hcb
    simp [Conn.handshakeUsernamePassword, Conn.Write_ok, hw, hread, hU, hcu, Conn.Write_snd,
      Conn.log, clientWrites_append, clientWrites, verSocks5, authUsernamePassword,
      authUsernamePasswordVersion, authUsernamePasswordStatusFailure]

theorem userpass_failure_status_witness :
    (Conn.handshakeUsernamePassword sampleServer
        { input := [[0x01, 0x01, 0x61, 0x01, 0x63]] }).1 =
      .ret (some .ErrAuthenticationFailed) ∧
    clientWrites (Conn.handshakeUsernamePassword sampleServer
        { input := [[0x01, 0x01, 0x61, 0x01, 0x63]] }).2.trace =
      [[0x05, 0x02], [0x01, 0x01]] :=
  userpass_failure_status sampleServer { input := [[0x01, 0x01, 0x61, 0x01, 0x63]] }
    .ErrAuthenticationFailed (by decide)
    (Or.inr ⟨by decide, _, rfl, by decide⟩)

/-- C7: the first byte of the client stream is not 0x05. Then `Conn.handshake` returns
the version error of `header.ReadFrom`; the connection is as before (no write, no
authorizer called, the datum unchanged) but for the one byte consumed. -/
theorem handshake_bad_version (srv : Server) (c : Conn) (b : Nat) (rest : List Nat)
    (hin : c.input.flatten = b :: rest) (hb : b ≠ 0x05) :
    ∃ r, c.handshake srv =
        (.ret (some (.new "head.ReadFrom: unsupported protocol version")),
          { c with input := r }) ∧
      r.flatten = rest := by
  obtain ⟨r1, h1, hr1⟩ := binaryReadByte_flatten c.input b rest hin
  refine ⟨r1, ?_, hr1⟩
  simp [Conn.handshake, header.ReadFrom, h1, verSocks5, hb]

theorem handshake_bad_version_witness :
    ∃ r, Conn.handshake sampleServer { input := [[0x04, 0x01], [0x00]] } =
        (.ret (some (.new "head.ReadFrom: unsupported protocol version")),
          { input := r }) ∧
      r.flatten = [0x01, 0x00] :=
  handshake_bad_version sampleServer { input := [[0x04, 0x01], [0x00]] } 0x04 [0x01, 0x00]
    (by decide) (by decide)

/-! ## C6: the errors of the request read -/

/-- C6: when the request has version 5 and an address type other than 0x01, 0x03 and
0x04, `Conn.command` writes exactly the reply `05 08 00 01 00 00 00 00 00 00` and
returns `ErrAddressTypeNotSupported`; when `cmd.ReadFrom` returns any other error,
`Conn.command` returns it and leaves the trace as it was: nothing is written. -/
theorem command_read_error (env : Env) (srv : Server) (c : Conn) (cm rs aty : Nat)
    (rest : List Nat) (e : Error) :
    (c.input.flatten = 0x05 :: cm :: rs :: aty :: rest ∧ aty ≠ 0x01 ∧ aty ≠ 0x03 ∧
        aty ≠ 0x04 →
      (c.command env srv).1 = .ret (some .ErrAddressTypeNotSupported) ∧
        clientWrites (c.command env srv).2.trace =
          clientWrites c.trace ++ [[0x05, 0x08, 0x00, 0x01, 0, 0, 0, 0, 0, 0]] ∧
        (c.command env srv).2.input.flatten = rest) ∧
    ((cmd.ReadFrom {} c.input).1.2 = some e ∧ e ≠ .ErrAddressTypeNotSupported →
      (c.command env srv).1 = .ret (some e) ∧ (c.command env srv).2.trace = c.trace) := by
  constructor
  · rintro ⟨hin, h1, h3, h4⟩
    obtain ⟨ra, ha, hra⟩ := binaryReadByte_flatten c.input _ _ hin
    obtain ⟨rb, hb, hrb⟩ := binaryReadByte_flatten ra _ _ hra
    obtain ⟨rc, hc, hrc⟩ := binaryReadByte_flatten rb _ _ hrb
    obtain ⟨rd, hd, hrd⟩ := binaryReadByte_flatten rc _ _ hrc
    have hread : cmd.ReadFrom {} c.input = ((4, some .ErrAddressTypeNotSupported),
        { ver := 0x05, cmd := cm, rsv := rs, atyp := aty }, rd) := by
      simp [cmd.ReadFrom, ha, hb, hc, hd, verSocks5, atypIPv4Address, atypDomainName,
        atypIPv6Address, h1, h3, h4]
    simp [Conn.command, hread, writeCommandErrorReply, Conn.Write_snd, clientWrites_append,
      clientWrites, hrd, verSocks5, repAddressTypeNotSupported, rsvReserved, atypIPv4Address]
  · rintro ⟨herr, hne⟩
    rcases hread : cmd.ReadFrom {} c.input with ⟨⟨n, err⟩, cm1, r⟩
    rw [hread] at herr
    simp only at herr
    subst herr
    simp [Conn.command, hread, hne]

theorem command_read_error_witness :
    ((Conn.command sampleEnv {} { input := [[0x05, 0x01, 0x00, 0x09, 0x07]] }).1 =
        .ret (some .ErrAddressTypeNotSupported) ∧
      clientWrites
          (Conn.command sampleEnv {} { input := [[0x05, 0x01, 0x00, 0x09, 0x07]] }).2.trace =
        [[0x05, 0x08, 0x00, 0x01, 0, 0, 0, 0, 0, 0]]) ∧
    ((Conn.command sampleEnv {} { input := [[0x05, 0x01], [0x00]] }).1 =
        .ret (some .EOF) ∧
      (Conn.command sampleEnv {} { input := [[0x05, 0x01], [0x00]] }).2.trace = []) := by
  have h1 := (command_read_error sampleEnv {} { input := [[0x05, 0x01, 0x00, 0x09, 0x07]] }
    0x01 0x00 0x09 [0x07] .EOF).1 (by decide)
  have h2 := (command_read_error sampleEnv {} { input := [[0x05, 0x01], [0x00]] }
    0 0 0 [] .EOF).2 (by decide)
  exact ⟨⟨h1.1, h1.2.1⟩, h2⟩

/-! ## C8: the reply frame read back -/

theorem putUint16_decode (p : Nat) (h : p < 65536) : p / 256 % 256 * 256 + p % 256 = p := by
  omega

/-- C8: a reply with version 5, an address type among 0x01, 0x03, 0x04, an address of the
length that type mandates (4 bytes, at most 255 bytes, 16 bytes) and a 16-bit port.
Then `cmdResp.WriteTo` makes one write, and `cmd.ReadFrom` reads the bytes of that
write back, however they are chunked, without error and to the last byte, into the
same version, reserved byte, address type, address and port, with `cmd` the `rep` of
the reply. -/
theorem reply_round_trip (resp : cmdResp) (w : Conn) (hver : resp.ver = 0x05)
    (hshape : (resp.atyp = 0x01 ∧ resp.bnd_addr.length = 4) ∨
      (resp.atyp = 0x03 ∧ resp.bnd_addr.length ≤ 255) ∨
      (resp.atyp = 0x04 ∧ resp.bnd_addr.length = 16))
    (hport : resp.bnd_port < 65536) :
    ∃ buf, resp.WriteTo w = w.Write buf ∧
      ∀ (rd : Reader) (c0 : cmd), rd.flatten = buf →
        ∃ r1, cmd.ReadFrom c0 rd =
            ((buf.length, none),
              { ver := resp.ver, cmd := resp.rep, rsv := resp.rsv, atyp := resp.atyp,
                dst_addr := resp.bnd_addr, dst_port := resp.bnd_port }, r1) ∧
          r1.flatten = [] := by
  have henc : resp.encode = .ok (frameBytes resp.rep resp.rsv resp.atyp resp.bnd_addr
      (resp.bnd_port / 256 % 256) (resp.bnd_port % 256)) := by
    rcases hshape with ⟨ha, hl⟩ | ⟨ha, hl⟩ | ⟨ha, hl⟩
    · simp [cmdResp.encode, hver, ha, hl, verSocks5, atypIPv4Address, IPv4len, frameBytes,
        atypDomainName, putUint16, List.take_of_length_le (le_of_eq hl)]
    · simp [cmdResp.encode, hver, ha, verSocks5, atypIPv4Address, frameBytes,
        atypDomainName, putUint16, Nat.mod_eq_of_lt (show resp.bnd_addr.length < 256 by omega)]
      omega
    · simp [cmdResp.encode, hver, ha, hl, verSocks5, atypIPv4Address, IPv6len, frameBytes,
        atypDomainName, atypIPv6Address, putUint16, List.take_of_length_le (le_of_eq hl)]
  refine ⟨frameBytes resp.rep resp.rsv resp.atyp resp.bnd_addr
      (resp.bnd_port / 256 % 256) (resp.bnd_port % 256), by simp [cmdResp.WriteTo, henc], ?_⟩
  intro rd c0 hrd
  have hs : addrShape resp.atyp resp.bnd_addr := by
    rcases hshape with ⟨ha, hl⟩ | ⟨ha, _⟩ | ⟨ha, hl⟩
    · exact Or.inl ⟨ha, hl⟩
    · exact Or.inr (Or.inl ha)
    · exact Or.inr (Or.inr ⟨ha, hl⟩)
  obtain ⟨r1, h1, h2⟩ := cmd_ReadFrom_flatten c0 rd resp.rep resp.rsv resp.atyp
    (resp.bnd_port / 256 % 256) (resp.bnd_port % 256) resp.bnd_addr [] hs (by simpa using hrd)
  refine ⟨r1, ?_, h2⟩
  rw [h1, putUint16_decode _ hport, hver]

theorem reply_round_trip_witness :
    ∃ buf, cmdResp.WriteTo sampleReply ({} : Conn) = Conn.Write ({} : Conn) buf ∧
      ∀ (rd : Reader) (c0 : cmd), rd.flatten = buf →
        ∃ r1, cmd.ReadFrom c0 rd =
            ((buf.length, none),
              { ver := 0x05, cmd := 0x00, rsv := 0x00, atyp := 0x01,
                dst_addr := [127, 0, 0, 1], dst_port := 54321 }, r1) ∧
          r1.flatten = [] :=
  reply_round_trip sampleReply ({} : Conn) rfl (Or.inl ⟨rfl, rfl⟩) (by decide)

/-! ## C9: the connect hooks -/

theorem ExtendsSock_refl (c : Conn) : c.ExtendsSock c := ⟨[], by simp, by simp⟩

theorem ExtendsSock_of_trace (c c1 : Conn) (h : c1.trace = c.trace) : c.ExtendsSock c1 :=
  ⟨[], by simp [h], by simp⟩

theorem ExtendsSock_trans {a b c : Conn} (h1 : a.ExtendsSock b) (h2 : b.ExtendsSock c) :
    a.ExtendsSock c := by
  obtain ⟨e1, ht1, hn1⟩ := h1
  obtain ⟨e2, ht2, hn2⟩ := h2
  refine ⟨e1 ++ e2, by rw [ht2, ht1, List.append_assoc], ?_⟩
  intro e he
  rcases List.mem_append.mp he with h | h
  · exact hn1 e h
  · exact hn2 e h

theorem ExtendsSock_intro (c c1 : Conn) (es : List Event) (h : c1.trace = c.trace ++ es)
    (hn : es.all isSocketEvent = true) : c.ExtendsSock c1 :=
  ⟨es, h, fun e he => List.all_eq_true.mp hn e he⟩

theorem ExtendsSock_Write (c : Conn) (bs : List Nat) : c.ExtendsSock (c.Write bs).2 := by
  rw [Conn.Write_snd]
  exact ExtendsSock_intro _ _ [.write bs (nextWriteOk c.wres)] rfl rfl

theorem ExtendsSock_Write_of_eq (c c1 : Conn) (bs : List Nat) (x : Nat × Option Error)
    (h : c.Write bs = (x, c1)) : c.ExtendsSock c1 := by
  have := ExtendsSock_Write c bs
  rwa [h] at this

theorem ExtendsSock_writeCommandErrorReply (c : Conn) (rep : Nat) :
    c.ExtendsSock (writeCommandErrorReply c rep).2 := by
  unfold writeCommandErrorReply
  exact ExtendsSock_Write _ _

theorem ExtendsSock_WriteTo_of_eq (resp : cmdResp) (c c1 : Conn) (x : Nat × Option Error)
    (h : resp.WriteTo c = (x, c1)) : c.ExtendsSock c1 := by
  unfold cmdResp.WriteTo at h
  rcases henc : resp.encode with e | buf
  · rw [henc] at h
    cases h
    exact ExtendsSock_refl c
  · rw [henc] at h
    exact ExtendsSock_Write_of_eq _ _ _ _ h

theorem ExtendsSock_writeConnectReply (env : Env) (la : String) (c : Conn) :
    c.ExtendsSock (c.writeConnectReply env la).2 := by
  unfold Conn.writeConnectReply
  rcases env.SplitHostPort la with err | ⟨host, port⟩
  · exact ExtendsSock_writeCommandErrorReply _ _
  · dsimp only
    split
    · exact ExtendsSock_refl c
    · rcases env.Atoi port with err | prt
      · exact ExtendsSock_writeCommandErrorReply _ _
      · dsimp only
        split
        · rename_i heq
          exact ExtendsSock_trans (ExtendsSock_WriteTo_of_eq _ _ _ _ heq)
            (ExtendsSock_writeCommandErrorReply _ _)
        · rename_i heq
          exact ExtendsSock_WriteTo_of_eq _ _ _ _ heq

theorem ExtendsSock_splitter (env : Env) (c : Conn) :
    c.ExtendsSock (c.splitter env).2 := by
  unfold Conn.splitter
  split
  · exact ExtendsSock_of_trace _ _ rfl
  · dsimp only [Conn.log]
    repeat' split
    all_goals
      apply ExtendsSock_intro
      · first
        | rfl
        | (simp only [List.append_assoc]; rfl)
      · rfl

theorem ExtendsSock_connected (env : Env) (la : String) (c : Conn) :
    c.ExtendsSock (c.connected env la).2 := by
  unfold Conn.connected
  have h1 := ExtendsSock_writeConnectReply env la c
  rcases hr : c.writeConnectReply env la with ⟨_ | out, c1⟩
  · rw [hr] at h1
    dsimp only
    have h2 := ExtendsSock_splitter env c1
    rcases hs : c1.splitter env with ⟨_ | out, c2⟩
    · rw [hs] at h2
      exact ExtendsSock_trans h1 (ExtendsSock_trans h2 (ExtendsSock_intro _ _ [.relay] rfl rfl))
    · rw [hs] at h2
      exact ExtendsSock_trans h1 h2
  · rw [hr] at h1
    exact h1

theorem runConnectHandlers_pass (k : Nat) :
    ∀ (hs : List (Data → List Nat → (List Nat × Option Error) × Data)) (i0 : Nat) (c : Conn)
      (hosts : Nat → List Nat) (datas : Nat → Data),
      datas 0 = c.Data →
      (∀ i < k, ∃ h, hs[i]? = some h ∧
        h (datas i) (hosts i) = ((hosts (i + 1), none), datas (i + 1))) →
      Conn.runConnectHandlers hs i0 (hosts 0) c =
        Conn.runConnectHandlers (hs.drop k) (i0 + k) (hosts k)
          { c with
            trace := c.trace ++
              (List.range k).map (fun i => Event.connectHook (i0 + i) (hosts i))
            Data := datas k } := by
  induction k with
  | zero =>
    intro hs i0 c hosts datas hd0 _
    simp [hd0]
  | succ k ih =>
    intro hs i0 c hosts datas hd0 hpass
    obtain ⟨h, hh, hcall⟩ := hpass 0 (Nat.succ_pos k)
    rcases hs with _ | ⟨h', tl⟩
    · simp at hh
    · simp only [List.getElem?_cons_zero, Option.some.injEq] at hh
      subst hh
      rw [hd0] at hcall
      have hstep := ih tl (i0 + 1)
        { c.log (.connectHook i0 (hosts 0)) with Data := datas 1 }
        (fun i => hosts (i + 1)) (fun i => datas (i + 1)) rfl
        (fun i hi => by simpa using hpass (i + 1) (Nat.succ_lt_succ hi))
      simp only [Conn.runConnectHandlers, hcall, List.drop_succ_cons]
      simp only [zero_add] at hstep ⊢
      rw [hstep]
      have hr : List.range (k + 1) = 0 :: (List.range k).map Nat.succ :=
        List.range_succ_eq_map k
      rw [hr]
      simp [Conn.log, Function.comp_def, Nat.add_assoc, Nat.add_comm 1]

/-- C9: the handlers of index below `k` agree one after the other, the first on
`cmd.DestAddress()` and each next one on the host its predecessor returned
(`hosts i` is the host given to handler `i`, `datas i` the datum it finds).
When handler `k` returns the error `e`, `commandConnect` calls the handlers 0 to `k`
in order on these hosts and nothing after them: no later handler, no dial. It writes
one reply, `05 02 00 01 00 00 00 00 00 00` and returns nil when `e` is
`ErrConnectionNotAllowedByRuleset`, else `05 01 00 01 00 00 00 00 00 00` and
returns `e`. When there is no handler `k` (all the registered handlers agreed; none is
registered when `k = 0`), the loop ends with the host the last handler returned, and
`commandConnect` calls the `k` handlers in order on these hosts, then dials that host,
and after the dial only the two sockets are used: no handler is called again and
there is no second dial. -/
theorem connect_hook_chain (env : Env) (srv : Server) (cm : cmd) (c : Conn) (k : Nat)
    (hosts : Nat → List Nat) (datas : Nat → Data)
    (h0 : hosts 0 = cm.DestAddress env) (hd0 : datas 0 = c.Data)
    (hpass : ∀ i < k, ∃ h, srv.connectHandlers[i]? = some h ∧
      h (datas i) (hosts i) = ((hosts (i + 1), none), datas (i + 1))) :
    (∀ h e nh d, srv.connectHandlers[k]? = some h →
      h (datas k) (hosts k) = ((nh, some e), d) →
      (c.commandConnect env srv cm).1 =
          .ret (if e = .ErrConnectionNotAllowedByRuleset then none else some e) ∧
        (c.commandConnect env srv cm).2.trace =
          c.trace ++ (List.range (k + 1)).map (fun i => Event.connectHook i (hosts i)) ++
            [.write [0x05, if e = .ErrConnectionNotAllowedByRuleset then 0x02 else 0x01,
              0x00, 0x01, 0, 0, 0, 0, 0, 0] (nextWriteOk c.wres)]) ∧
      (srv.connectHandlers.length = k →
        Conn.runConnectHandlers srv.connectHandlers 0 (cm.DestAddress env) c =
            (.inr (hosts k), { c with
              trace := c.trace ++ (List.range k).map (fun i => Event.connectHook i (hosts i))
              Data := datas k }) ∧
          ∃ rest, (c.commandConnect env srv cm).2.trace =
              c.trace ++ (List.range k).map (fun i => Event.connectHook i (hosts i)) ++
                [.dial (hosts k)] ++ rest ∧
            ∀ ev ∈ rest, isSocketEvent ev = true) := by
  have hrun := runConnectHandlers_pass k srv.connectHandlers 0 c hosts datas hd0 hpass
  rw [h0] at hrun
  constructor
  · intro h e nh d hh hcall
    obtain ⟨hk, hget⟩ := List.getElem?_eq_some_iff.mp hh
    have hdrop : srv.connectHandlers.drop k = h :: srv.connectHandlers.drop (k + 1) := by
      rw [← hget]
      exact List.drop_eq_getElem_cons hk
    by_cases he : e = .ErrConnectionNotAllowedByRuleset
    · simp only [Conn.commandConnect, hrun, hdrop, Conn.runConnectHandlers, hcall, he,
        writeCommandErrorReply, Conn.Write_snd, zero_add]
      simp [Conn.log, List.range_succ, verSocks5, rsvReserved, atypIPv4Address,
        repConnectionNotAllowedByRuleset]
    · simp only [Conn.commandConnect, hrun, hdrop, Conn.runConnectHandlers, hcall, he,
        writeCommandErrorReply, Conn.Write_snd, zero_add]
      simp [Conn.log, List.range_succ, verSocks5, rsvReserved, atypIPv4Address,
        repGeneralSocksServerFailure]
  · intro hlen
    have hdrop : srv.connectHandlers.drop k = [] := by
      rw [← hlen]
      exact List.drop_length _
    have hloop : Conn.runConnectHandlers srv.connectHandlers 0 (cm.DestAddress env) c =
        (.inr (hosts k), { c with
          trace := c.trace ++ (List.range k).map (fun i => Event.connectHook i (hosts i))
          Data := datas k }) := by
      rw [hrun, hdrop]
      simp [Conn.runConnectHandlers]
    refine ⟨hloop, ?_⟩
    simp only [Conn.commandConnect, hloop]
    rcases env.Dial (hosts k) with err | la
    · obtain ⟨es, hes, hn⟩ := ExtendsSock_writeCommandErrorReply
        (Conn.log { c with
          trace := c.trace ++ (List.range k).map (fun i => Event.connectHook i (hosts i))
          Data := datas k } (.dial (hosts k))) (dialErrorRep err)
      exact ⟨es, by simpa [Conn.log] using hes, hn⟩
    · obtain ⟨es, hes, hn⟩ := ExtendsSock_connected env la
        (Conn.log { c with
          trace := c.trace ++ (List.range k).map (fun i => Event.connectHook i (hosts i))
          Data := datas k } (.dial (hosts k)))
      refine ⟨es ++ [.upClose], ?_, ?_⟩
      · simp only [Conn.log] at hes ⊢
        rw [hes]
        simp
      · intro ev hev
        rcases List.mem_append.mp hev with h | h
        · exact hn ev h
        · simp only [List.mem_singleton] at h
          subst h
          rfl

theorem connect_hook_chain_witness :
    ((Conn.commandConnect sampleEnv sampleHookServer sampleRequest {}).1 = .ret none ∧
      (Conn.commandConnect sampleEnv sampleHookServer sampleRequest {}).2.trace =
        [.connectHook 0 (goString "127.0.0.1:80"), .connectHook 1 (goString "example.org:80"),
          .write [0x05, 0x02, 0x00, 0x01, 0, 0, 0, 0, 0, 0] true]) ∧
    ∃ rest, (Conn.commandConnect sampleEnv agreeHookServer sampleRequest {}).2.trace =
        [.connectHook 0 (goString "127.0.0.1:80"), .connectHook 1 (goString "example.org:80"),
          .dial (goString "example.org:80")] ++ rest ∧
      ∀ ev ∈ rest, isSocketEvent ev = true :=
  ⟨(connect_hook_chain sampleEnv sampleHookServer sampleRequest {} 1
      (fun i => if i = 0 then goString "127.0.0.1:80" else goString "example.org:80")
      (fun _ => none) rfl rfl
      (fun i hi => by
        obtain rfl : i = 0 := by omega
        exact ⟨_, rfl, rfl⟩)).1 _ .ErrConnectionNotAllowedByRuleset (goString "example.org:80")
      none rfl rfl,
    ((connect_hook_chain sampleEnv agreeHookServer sampleRequest {} 2
      (fun i => if i = 0 then goString "127.0.0.1:80" else goString "example.org:80")
      (fun i => if i = 0 then none else some "seen") rfl rfl
      (fun i hi => by
        rcases (by omega : i = 0 ∨ i = 1) with rfl | rfl
        · exact ⟨_, rfl, rfl⟩
        · exact ⟨_, rfl, rfl⟩)).2 rfl).2⟩

/-! ## C10: commands other than CONNECT -/

/-- C10: a well-formed request with version 5 and a command other than CONNECT. Then
`Conn.command` does one thing, the write of `05 07 00 01 00 00 00 00 00 00` (no
connect hook, no dial), and returns nil when that write succeeds. -/
theorem command_not_supported (env : Env) (srv : Server) (c : Conn) (cm rsv aty ph pl : Nat)
    (addr rest : List Nat) (hshape : addrShape aty addr) (hcm : cm ≠ 0x01)
    (hin : c.input.flatten = frameBytes cm rsv aty addr ph pl ++ rest) :
    (c.command env srv).2.trace =
        c.trace ++ [.write [0x05, 0x07, 0x00, 0x01, 0, 0, 0, 0, 0, 0] (nextWriteOk c.wres)] ∧
      (nextWriteOk c.wres = true → (c.command env srv).1 = .ret none) ∧
      (c.command env srv).2.input.flatten = rest := by
  obtain ⟨r1, hread, hr1⟩ := cmd_ReadFrom_flatten {} c.input cm rsv aty ph pl addr rest
    hshape hin
  refine ⟨?_, ?_, ?_⟩
  · simp [Conn.command, hread, cmdConnect, hcm, writeCommandErrorReply, Conn.Write_snd,
      verSocks5, repComandNotSupported, rsvReserved, atypIPv4Address]
  · intro hw
    simp [Conn.command, hread, cmdConnect, hcm, writeCommandErrorReply, Conn.Write_ok, hw]
  · simp [Conn.command, hread, cmdConnect, hcm, writeCommandErrorReply, Conn.Write_snd, hr1]

theorem command_not_supported_witness :
    (Conn.command sampleEnv sampleHookServer
        { input := [[0x05, 0x03, 0x00, 0x01, 127, 0, 0, 1, 0x00, 0x50]] }).2.trace =
      [.write [0x05, 0x07, 0x00, 0x01, 0, 0, 0, 0, 0, 0] true] ∧
    (Conn.command sampleEnv sampleHookServer
        { input := [[0x05, 0x03, 0x00, 0x01, 127, 0, 0, 1, 0x00, 0x50]] }).1 = .ret none := by
  have h := command_not_supported sampleEnv sampleHookServer
    { input := [[0x05, 0x03, 0x00, 0x01, 127, 0, 0, 1, 0x00, 0x50]] } 0x03 0x00 0x01 0x00 0x50
    [127, 0, 0, 1] [] (by decide) (by decide) (by decide)
  exact ⟨h.1, h.2.1 rfl⟩

/-! ## C11, C12: the reply on the wire -/

/-- C11: a reply with version 5, address type 0x01 and the four address bytes
`a b c d`. `cmdResp.WriteTo` makes one write, of the ten bytes `05 rep rsv 01 a b c d`
and the port with its high byte first, and returns the count 10 when the write
succeeds. -/
theorem reply_wire_layout (resp : cmdResp) (w : Conn) (a b c d : Nat)
    (hver : resp.ver = 0x05) (hatyp : resp.atyp = 0x01) (haddr : resp.bnd_addr = [a, b, c, d])
    (hport : resp.bnd_port < 65536) :
    resp.WriteTo w =
        w.Write [0x05, resp.rep, resp.rsv, 0x01, a, b, c, d, resp.bnd_port / 256,
          resp.bnd_port % 256] ∧
      (resp.WriteTo w).2.trace =
        w.trace ++ [.write [0x05, resp.rep, resp.rsv, 0x01, a, b, c, d, resp.bnd_port / 256,
          resp.bnd_port % 256] (nextWriteOk w.wres)] ∧
      (nextWriteOk w.wres = true → (resp.WriteTo w).1 = (10, none)) := by
  have hhi : resp.bnd_port / 256 % 256 = resp.bnd_port / 256 := by omega
  have henc : resp.encode = .ok [0x05, resp.rep, resp.rsv, 0x01, a, b, c, d,
      resp.bnd_port / 256, resp.bnd_port % 256] := by
    simp [cmdResp.encode, hver, hatyp, haddr, verSocks5, atypIPv4Address, IPv4len, putUint16,
      hhi]
  have hw : resp.WriteTo w = w.Write [0x05, resp.rep, resp.rsv, 0x01, a, b, c, d,
      resp.bnd_port / 256, resp.bnd_port % 256] := by
    simp [cmdResp.WriteTo, henc]
  refine ⟨hw, ?_, ?_⟩
  · rw [hw, Conn.Write_snd]
  · intro hok
    rw [hw, Conn.Write_ok _ _ hok]
    rfl

theorem reply_wire_layout_witness :
    cmdResp.WriteTo sampleReply ({} : Conn) =
        Conn.Write ({} : Conn) [0x05, 0x00, 0x00, 0x01, 0x7F, 0x00, 0x00, 0x01, 0xD4, 0x31] ∧
      (cmdResp.WriteTo sampleReply ({} : Conn)).1 = (10, none) := by
  have h := reply_wire_layout sampleReply ({} : Conn) 127 0 0 1 rfl rfl rfl (by decide)
  exact ⟨h.1, h.2.2 rfl⟩

/-- C12: `cmdResp.WriteTo` returns an error and writes nothing when the address is
shorter than its type mandates (fewer than 4 bytes for 0x01, fewer than 16 for 0x04)
or is a domain name of more than 255 bytes; for a reply with version 5 the validation
fails in those cases only: in every other case the buffer is built and handed to the
one write. -/
theorem reply_validation (resp : cmdResp) (w : Conn) :
    ((resp.atyp = 0x01 ∧ resp.bnd_addr.length < 4) ∨
        (resp.atyp = 0x04 ∧ resp.bnd_addr.length < 16) ∨
        (resp.atyp = 0x03 ∧ 255 < resp.bnd_addr.length) →
      ∃ e, resp.WriteTo w = ((0, some e), w)) ∧
    (resp.ver = 0x05 →
      ¬ ((resp.atyp = 0x01 ∧ resp.bnd_addr.length < 4) ∨
        (resp.atyp = 0x04 ∧ resp.bnd_addr.length < 16) ∨
        (resp.atyp = 0x03 ∧ 255 < resp.bnd_addr.length)) →
      ∃ buf, resp.encode = .ok buf ∧ resp.WriteTo w = w.Write buf) := by
  have kerr : ∀ e, resp.encode = .error e → resp.WriteTo w = ((0, some e), w) := by
    intro e he
    simp [cmdResp.WriteTo, he]
  have kok : ∀ buf, resp.encode = .ok buf → resp.WriteTo w = w.Write buf := by
    intro buf he
    simp [cmdResp.WriteTo, he]
  constructor
  · intro h
    by_cases hver : resp.ver = verSocks5
    · rcases h with ⟨ha, hl⟩ | ⟨ha, hl⟩ | ⟨ha, hl⟩
      · exact ⟨.new "cmdResp.bnd_addr too short", kerr _ (by
          simp [cmdResp.encode, hver, ha, hl, atypIPv4Address, IPv4len])⟩
      · exact ⟨.new "cmdResp.bnd_addr too short", kerr _ (by
          simp [cmdResp.encode, hver, ha, hl, atypIPv4Address, atypDomainName,
            atypIPv6Address, IPv6len])⟩
      · exact ⟨.new "cmdResp.bnd_addr too large", kerr _ (by
          simp [cmdResp.encode, hver, ha, hl, atypIPv4Address, atypDomainName])⟩
    · exact ⟨.new "cmdResp.WriteTo: unsupported protocol version", kerr _ (by
        simp [cmdResp.encode, hver])⟩
  · intro hver hno
    simp only [not_or, not_and, not_lt] at hno
    obtain ⟨h4, h6, h3⟩ := hno
    have hv : resp.ver = verSocks5 := hver
    by_cases ha4 : resp.atyp = atypIPv4Address
    · have hlen := h4 ha4
      have henc : resp.encode = .ok ([resp.ver, resp.rep, resp.rsv, resp.atyp] ++
          resp.bnd_addr.take IPv4len ++ putUint16 resp.bnd_port) := by
        simp [cmdResp.encode, hv, ha4, IPv4len, Nat.not_lt.mpr hlen]
      exact ⟨_, henc, kok _ henc⟩
    · by_cases ha3 : resp.atyp = atypDomainName
      · have hlen := h3 ha3
        have henc : resp.encode = .ok ([resp.ver, resp.rep, resp.rsv, resp.atyp] ++
            [resp.bnd_addr.length % 256] ++ resp.bnd_addr ++ putUint16 resp.bnd_port) := by
          simp [cmdResp.encode, hv, ha3, atypDomainName, atypIPv4Address,
            Nat.not_lt.mpr hlen]
        exact ⟨_, henc, kok _ henc⟩
      · by_cases ha6 : resp.atyp = atypIPv6Address
        · have hlen := h6 ha6
          have henc : resp.encode = .ok ([resp.ver, resp.rep, resp.rsv, resp.atyp] ++
              resp.bnd_addr.take IPv6len ++ putUint16 resp.bnd_port) := by
            simp [cmdResp.encode, hv, ha6, atypDomainName, atypIPv4Address, atypIPv6Address,
              IPv6len, Nat.not_lt.mpr hlen]
          exact ⟨_, henc, kok _ henc⟩
        · have henc : resp.encode = .ok ([resp.ver, resp.rep, resp.rsv, resp.atyp] ++
              putUint16 resp.bnd_port) := by
            simp [cmdResp.encode, hv, ha4, ha3, ha6]
          exact ⟨_, henc, kok _ henc⟩

theorem reply_validation_witness :
    (∃ e, cmdResp.WriteTo { ver := 0x05, atyp := 0x01, bnd_addr := [127, 0, 0] } ({} : Conn) =
        ((0, some e), ({} : Conn))) ∧
      ∃ buf, cmdResp.encode sampleReply = .ok buf ∧
        cmdResp.WriteTo sampleReply ({} : Conn) = Conn.Write ({} : Conn) buf :=
  ⟨(reply_validation { ver := 0x05, atyp := 0x01, bnd_addr := [127, 0, 0] } ({} : Conn)).1
      (Or.inl ⟨rfl, by decide⟩),
    (reply_validation sampleReply ({} : Conn)).2 rfl (by decide)⟩

/-! ## C13, C20: what the parsers consume -/

/-- C13: the stream begins with 0x05, a command byte, a reserved byte and an address
type other than 0x01, 0x03 and 0x04. `cmd.ReadFrom` fails with
`ErrAddressTypeNotSupported`, reports `n = 4`, and leaves every byte after the
address type unread. -/
theorem request_unknown_atyp (c0 : cmd) (r : Reader) (cm rs aty : Nat) (rest : List Nat)
    (hin : r.flatten = 0x05 :: cm :: rs :: aty :: rest)
    (h1 : aty ≠ 0x01) (h3 : aty ≠ 0x03) (h4 : aty ≠ 0x04) :
    ∃ r1, cmd.ReadFrom c0 r =
        ((4, some .ErrAddressTypeNotSupported),
          { c0 with ver := 0x05, cmd := cm, rsv := rs, atyp := aty }, r1) ∧
      r1.flatten = rest := by
  obtain ⟨ra, ha, hra⟩ := binaryReadByte_flatten r _ _ hin
  obtain ⟨rb, hb, hrb⟩ := binaryReadByte_flatten ra _ _ hra
  obtain ⟨rc, hc, hrc⟩ := binaryReadByte_flatten rb _ _ hrb
  obtain ⟨rd, hd, hrd⟩ := binaryReadByte_flatten rc _ _ hrc
  refine ⟨rd, ?_, hrd⟩
  simp [cmd.ReadFrom, ha, hb, hc, hd, verSocks5, atypIPv4Address, atypDomainName,
    atypIPv6Address, h1, h3, h4]

theorem request_unknown_atyp_witness :
    ∃ r1, cmd.ReadFrom {} [[0x05, 0x01], [0x00, 0x09, 0x07, 0x08]] =
        ((4, some .ErrAddressTypeNotSupported),
          { ver := 0x05, cmd := 0x01, rsv := 0x00, atyp := 0x09 }, r1) ∧
      r1.flatten = [0x07, 0x08] :=
  request_unknown_atyp {} [[0x05, 0x01], [0x00, 0x09, 0x07, 0x08]] 0x01 0x00 0x09 [0x07, 0x08]
    (by decide) (by decide) (by decide) (by decide)

/-- C20: on a stream that starts with a well-formed frame and goes on with the bytes
`rest`, however it is chunked, each parser returns no error, the count of the bytes
of the frame (`2 + nmethods`; `3 + ulen + plen`; `6 + 4`, `7 + len` and `6 + 16` for
the three address types), the fields as they stand in the input with the port read
high byte first, and leaves exactly `rest` unread. -/
theorem parsers_consume_frame (r : Reader) (rest : List Nat) :
    (∀ (h0 : header) (methods : List Nat),
      r.flatten = 0x05 :: methods.length :: (methods ++ rest) →
      ∃ r1, header.ReadFrom h0 r =
          ((2 + methods.length, none), { ver := 0x05, methods := methods }, r1) ∧
        r1.flatten = rest) ∧
    (∀ (up0 : userpass) (uname passwd : List Nat),
      r.flatten = 0x01 :: uname.length :: (uname ++ passwd.length :: (passwd ++ rest)) →
      ∃ r1, userpass.ReadFrom up0 r =
          ((3 + uname.length + passwd.length, none),
            { ver := 0x01, uname := uname, passwd := passwd }, r1) ∧
        r1.flatten = rest) ∧
    (∀ (c0 : cmd) (cm rsv ph pl : Nat) (addr : List Nat), addr.length = 4 →
      r.flatten = [0x05, cm, rsv, 0x01] ++ addr ++ [ph, pl] ++ rest →
      ∃ r1, cmd.ReadFrom c0 r =
          ((6 + 4, none),
            { ver := 0x05, cmd := cm, rsv := rsv, atyp := 0x01, dst_addr := addr,
              dst_port := ph * 256 + pl }, r1) ∧
        r1.flatten = rest) ∧
    (∀ (c0 : cmd) (cm rsv ph pl : Nat) (addr : List Nat),
      r.flatten = [0x05, cm, rsv, 0x03, addr.length] ++ addr ++ [ph, pl] ++ rest →
      ∃ r1, cmd.ReadFrom c0 r =
          ((7 + addr.length, none),
            { ver := 0x05, cmd := cm, rsv := rsv, atyp := 0x03, dst_addr := addr,
              dst_port := ph * 256 + pl }, r1) ∧
        r1.flatten = rest) ∧
    (∀ (c0 : cmd) (cm rsv ph pl : Nat) (addr : List Nat), addr.length = 16 →
      r.flatten = [0x05, cm, rsv, 0x04] ++ addr ++ [ph, pl] ++ rest →
      ∃ r1, cmd.ReadFrom c0 r =
          ((6 + 16, none),
            { ver := 0x05, cmd := cm, rsv := rsv, atyp := 0x04, dst_addr := addr,
              dst_port := ph * 256 + pl }, r1) ∧
        r1.flatten = rest) := by
  refine ⟨?_, ?_, ?_, ?_, ?_⟩
  · intro h0 methods hin
    exact header_ReadFrom_flatten h0 r methods rest hin
  · intro up0 uname passwd hin
    obtain ⟨r1, h1, h2⟩ := userpass_ReadFrom_flatten up0 r uname passwd rest hin
    refine ⟨r1, ?_, h2⟩
    rw [h1, show 2 + uname.length + 1 + passwd.length = 3 + uname.length + passwd.length by
      omega]
  · intro c0 cm rsv ph pl addr hlen hin
    obtain ⟨r1, h1, h2⟩ := cmd_ReadFrom_flatten c0 r cm rsv 0x01 ph pl addr rest
      (Or.inl ⟨rfl, hlen⟩) (by simpa [frameBytes, atypDomainName] using hin)
    refine ⟨r1, ?_, h2⟩
    rw [h1]
    simp [frameBytes, atypDomainName, hlen]
  · intro c0 cm rsv ph pl addr hin
    obtain ⟨r1, h1, h2⟩ := cmd_ReadFrom_flatten c0 r cm rsv 0x03 ph pl addr rest
      (Or.inr (Or.inl rfl)) (by simpa [frameBytes, atypDomainName] using hin)
    refine ⟨r1, ?_, h2⟩
    rw [h1]
    simp [frameBytes, atypDomainName]
    omega
  · intro c0 cm rsv ph pl addr hlen hin
    obtain ⟨r1, h1, h2⟩ := cmd_ReadFrom_flatten c0 r cm rsv 0x04 ph pl addr rest
      (Or.inr (Or.inr ⟨rfl, hlen⟩)) (by simpa [frameBytes, atypDomainName] using hin)
    refine ⟨r1, ?_, h2⟩
    rw [h1]
    simp [frameBytes, atypDomainName, hlen]

theorem parsers_consume_frame_witness :
    (∃ r1, header.ReadFrom {} [[0x05, 0x02, 0x00], [0x02, 0x01, 0x01]] =
        ((2 + 2, none), { ver := 0x05, methods := [0x00, 0x02] }, r1) ∧
      r1.flatten = [0x01, 0x01]) ∧
    (∃ r1, userpass.ReadFrom {} [[0x01, 0x01, 0x61, 0x01, 0x62, 0x05]] =
        ((3 + 1 + 1, none), { ver := 0x01, uname := [0x61], passwd := [0x62] }, r1) ∧
      r1.flatten = [0x05]) ∧
    (∃ r1, cmd.ReadFrom {} [[0x05, 0x01, 0x00, 0x01, 127, 0, 0, 1, 0x00, 0x50, 0x47]] =
        ((6 + 4, none),
          { ver := 0x05, cmd := 0x01, rsv := 0x00, atyp := 0x01, dst_addr := [127, 0, 0, 1],
            dst_port := 0x00 * 256 + 0x50 }, r1) ∧
      r1.flatten = [0x47]) :=
  ⟨(parsers_consume_frame [[0x05, 0x02, 0x00], [0x02, 0x01, 0x01]] [0x01, 0x01]).1 {}
      [0x00, 0x02] (by decide),
    (parsers_consume_frame [[0x01, 0x01, 0x61, 0x01, 0x62, 0x05]] [0x05]).2.1 {} [0x61] [0x62]
      (by decide),
    (parsers_consume_frame [[0x05, 0x01, 0x00, 0x01, 127, 0, 0, 1, 0x00, 0x50, 0x47]]
      [0x47]).2.2.1 {} 0x01 0x00 0x00 0x50 [127, 0, 0, 1] rfl (by decide)⟩

/-! ## C18, C19: the first byte and the missing `host:` -/

/-- C18: after the first client byte `b` was read and forwarded, the splitter goes on by
`b` alone. For `b = 0x16` it reads once into a buffer of `R = rand.Intn(100) + 80`
bytes and forwards that buffer; for `b` in `0x41..0x5A` or `0x62..0x7A` it reads once
into a buffer of 512 bytes; for every other `b`, `0x61` included, it writes only `b`
to the upstream and reads nothing more before the relay. -/
theorem splitter_classification (env : Env) (c : Conn) (b : Nat) (r1 : Reader)
    (hfirst : Read 1 c.input = (([b], none), r1)) :
    (b = 0x16 →
      80 ≤ env.Intn100.val + 80 ∧ env.Intn100.val + 80 ≤ 179 ∧
      c.splitter env =
        match Read (env.Intn100.val + 80) r1 with
        | ((_, some _), r2) =>
          (some (.ret none), { c with input := r2, trace := c.trace ++ [.upWrite [b]] })
        | ((bs, none), r2) =>
          (none, { c with
            input := r2
            trace := c.trace ++
              [.upWrite [b], .upWrite (mkBuf (env.Intn100.val + 80) bs)] })) ∧
    ((0x41 ≤ b ∧ b ≤ 0x5A) ∨ (0x62 ≤ b ∧ b ≤ 0x7A) →
      (c.splitter env).2.input = (Read 512 r1).2 ∧
        c.trace ++ [.upWrite [b]] <+: (c.splitter env).2.trace) ∧
    (b ≠ 0x16 → ¬ ((0x41 ≤ b ∧ b ≤ 0x5A) ∨ (0x62 ≤ b ∧ b ≤ 0x7A)) →
      c.splitter env = (none, { c with input := r1, trace := c.trace ++ [.upWrite [b]] })) ∧
    (b = 0x61 →
      c.splitter env = (none, { c with input := r1, trace := c.trace ++ [.upWrite [b]] })) := by
  have hbuf : mkBuf 1 [b] = [b] := rfl
  have hunknown : b ≠ 0x16 → ¬ ((0x41 ≤ b ∧ b ≤ 0x5A) ∨ (0x62 ≤ b ∧ b ≤ 0x7A)) →
      c.splitter env =
        (none, { c with input := r1, trace := c.trace ++ [.upWrite [b]] }) := by
    intro h16 hhttp
    simp [Conn.splitter, hfirst, hbuf, h16, hhttp, Conn.log]
  refine ⟨?_, ?_, hunknown, ?_⟩
  · intro h16
    subst h16
    refine ⟨by omega, by have := env.Intn100.isLt; omega, ?_⟩
    rcases hread : Read (env.Intn100.val + 80) r1 with ⟨⟨bs, _ | e⟩, r2⟩
    · simp [Conn.splitter, hfirst, hbuf, hread, Conn.log]
    · simp [Conn.splitter, hfirst, hbuf, hread, Conn.log]
  · intro hhttp
    have h16 : b ≠ 0x16 := by omega
    rcases hread : Read 512 r1 with ⟨⟨bs, _ | e⟩, r2⟩
    · simp only [Conn.splitter, hfirst, hbuf, List.headD_cons, h16, if_false, hhttp, if_true,
        Conn.log, hread]
      split
      · exact ⟨rfl, by simp⟩
      · split
        · exact ⟨rfl, by simp⟩
        · exact ⟨rfl, by simp⟩
    · simp [Conn.splitter, hfirst, hbuf, h16, hhttp, hread, Conn.log]
  · intro h61
    exact hunknown (by omega) (by omega)

theorem splitter_classification_witness :
    Conn.splitter sampleEnv { input := [[0x61, 0x62, 0x63]] } =
      (none, { input := [[0x62, 0x63]], trace := [.upWrite [0x61]] }) :=
  (splitter_classification sampleEnv { input := [[0x61, 0x62, 0x63]] } 0x61 [[0x62, 0x63]]
    (by decide)).2.2.2 rfl

theorem stringsIndexFrom_none (substr : List Nat) (hne : substr ≠ []) :
    ∀ (s : List Nat) (k : Nat), (∀ j, ¬ substr <+: s.drop j) →
      stringsIndexFrom substr s k = -1 := by
  intro s
  induction s with
  | nil =>
    intro k _
    simp [stringsIndexFrom, hne]
  | cons x xs ih =>
    intro k h
    have h0 : ¬ substr <+: (x :: xs) := by simpa using h 0
    rw [stringsIndexFrom]
    simp only [List.isPrefixOf_iff_prefix, h0]
    exact ih (k + 1) (fun j => by simpa using h (j + 1))

theorem lowered_no_hostColon (env : Env) (p : List Nat)
    (hno : (∀ x ∈ p, x < 0x80) ∧ (∀ j, ¬ hostColonAt p j) ∨
      (∀ j, ¬ hostColon <+: (stringsToLower env (mkBuf 512 p)).drop j)) :
    ∀ j, ¬ hostColon <+: (stringsToLower env (mkBuf 512 p)).drop j := by
  rcases hno with ⟨hascii, hno⟩ | hno
  · have hlow : stringsToLower env (mkBuf 512 p) =
        p.map asciiLower ++ List.replicate (512 - p.length) 0 := by
      rw [stringsToLower, if_pos, map_asciiLower_mkBuf]
      simp only [mkBuf, List.all_append, List.all_replicate, Bool.and_eq_true,
        List.all_eq_true, decide_eq_true_eq]
      refine ⟨hascii, ?_⟩
      simp
    intro j h
    rw [hlow] at h
    exact hno j ((hostColon_padded _ _ _).1 h)
  · exact hno

/-- C19: the first client byte is in the plaintext-HTTP letter range and the read of at
most 512 bytes that follows returns a prefix `p` with no `host:` in any letter case
(for ASCII bytes, no offset of `p` where `host:` stands; in general, no `host:` in
what `strings.ToLower` makes of the buffer). Then `strings.Index` is -1, the slice
`httpHdr[0:idx]` is out of range and `commandConnect` panics: the upstream got the
first byte and nothing of `p`, the relay does not start, and only the deferred close
of the upstream socket follows. -/
theorem connect_http_no_host_panics (env : Env) (srv : Server) (cm : cmd) (c c1 c2 : Conn)
    (host : List Nat) (la : String) (b : Nat) (p : List Nat) (r1 r2 : Reader)
    (hhooks : Conn.runConnectHandlers srv.connectHandlers 0 (cm.DestAddress env) c =
      (.inr host, c1))
    (hdial : env.Dial host = .ok la)
    (hreply : (c1.log (.dial host)).writeConnectReply env la = (none, c2))
    (hfirst : Read 1 c2.input = (([b], none), r1))
    (hb : (0x41 ≤ b ∧ b ≤ 0x5a) ∨ (0x62 ≤ b ∧ b ≤ 0x7a))
    (hread : Read 512 r1 = ((p, none), r2))
    (hno : (∀ x ∈ p, x < 0x80) ∧ (∀ j, ¬ hostColonAt p j) ∨
      (∀ j, ¬ hostColon <+: (stringsToLower env (mkBuf 512 p)).drop j)) :
    stringsIndex (stringsToLower env (mkBuf 512 p)) hostColon = -1 ∧
      sliceExpr (mkBuf 512 p) 0 (-1) = none ∧
      c.commandConnect env srv cm =
        (.panic "slice bounds out of range", { c2 with
          input := r2
          trace := c2.trace ++ [.upWrite [b], .upClose] }) := by
  have hidx : stringsIndex (stringsToLower env (mkBuf 512 p)) hostColon = -1 :=
    stringsIndexFrom_none hostColon (by decide) _ 0 (lowered_no_hostColon env p hno)
  have hslice : sliceExpr (mkBuf 512 p) 0 (-1) = none := by
    simp [sliceExpr]
  have hb16 : b ≠ 0x16 := by omega
  have hbuf : mkBuf 1 [b] = [b] := rfl
  have hsplit : c2.splitter env = (some (.panic "slice bounds out of range"),
      { c2 with input := r2, trace := c2.trace ++ [.upWrite [b]] }) := by
    simp [Conn.splitter, hfirst, hbuf, hb16, hb, hread, Conn.log, hidx, hslice]
  refine ⟨hidx, hslice, ?_⟩
  simp only [Conn.commandConnect, hhooks, hdial, Conn.connected, hreply, hsplit]
  simp [Conn.log]

theorem connect_http_no_host_panics_witness :
    (Conn.commandConnect sampleEnv {} sampleRequest { input := [sshBanner] }).1 =
      .panic "slice bounds out of range" ∧
    upstreamWrites
        (Conn.commandConnect sampleEnv {} sampleRequest { input := [sshBanner] }).2.trace =
      [[0x53]] := by
  have h := connect_http_no_host_panics sampleEnv {} sampleRequest { input := [sshBanner] }
    { input := [sshBanner] }
    { input := [sshBanner],
      trace := [.dial (goString "127.0.0.1:80"),
        .write [5, 0, 0, 1, 127, 0, 0, 1, 212, 49] true] }
    (goString "127.0.0.1:80") "127.0.0.1:54321" 0x53 (sshBanner.drop 1) [sshBanner.drop 1] []
    rfl rfl rfl (by decide) (by decide) (by decide)
    (Or.inl ⟨by decide, fun j hj => by
      have hlen := hostColonAt_bound _ j hj
      have hj20 : j < 20 := by
        simp [sshBanner] at hlen
        omega
      have key : ∀ i, i < 20 → ¬ hostColonAt (sshBanner.drop 1) i := by decide
      exact key j hj20 hj⟩)
  rw [h.2.2]
  decide

/-! ## C17: the reply after the dial -/

/-- C17 at a local address that `net.ParseIP` refuses: no connect hook is registered,
the dial of `printer.local:80` succeeds and the socket reports the local address
`[fe80::2%eth0]:54321`. `ip` is nil, `ip.To4()` is nil, the slice `ip[:net.IPv6len]`
panics, and `commandConnect` ends without any write to the client: no reply. -/
theorem connect_no_reply_on_nil_ip :
    zoneRequest.DestAddress zoneEnv = goString "printer.local:80" ∧
    zoneEnv.ParseIP "fe80::2%eth0" = none ∧
    Conn.commandConnect zoneEnv {} zoneRequest {} =
      (.panic "slice bounds out of range",
        { trace := [.dial (goString "printer.local:80"), .upClose] }) ∧
    clientWrites (Conn.commandConnect zoneEnv {} zoneRequest {}).2.trace = [] := by
  refine ⟨by decide, rfl, ?_, ?_⟩ <;> rfl

/-! ## C16: the close hooks -/

theorem ExtendsOpen_refl (c : Conn) : c.ExtendsOpen c := ⟨[], by simp, by simp⟩

theorem ExtendsOpen_of_trace (c c1 : Conn) (h : c1.trace = c.trace) : c.ExtendsOpen c1 :=
  ⟨[], by simp [h], by simp⟩

theorem ExtendsOpen_trans {a b c : Conn} (h1 : a.ExtendsOpen b) (h2 : b.ExtendsOpen c) :
    a.ExtendsOpen c := by
  obtain ⟨e1, ht1, hn1⟩ := h1
  obtain ⟨e2, ht2, hn2⟩ := h2
  refine ⟨e1 ++ e2, by rw [ht2, ht1, List.append_assoc], ?_⟩
  intro e he
  rcases List.mem_append.mp he with h | h
  · exact hn1 e h
  · exact hn2 e h

theorem ExtendsOpen_step (c c1 : Conn) (e : Event) (he : isCloseEvent e = false)
    (h : c1.trace = c.trace ++ [e]) : c.ExtendsOpen c1 :=
  ⟨[e], h, by simpa using he⟩

theorem ExtendsOpen_Write (c : Conn) (bs : List Nat) : c.ExtendsOpen (c.Write bs).2 := by
  rw [Conn.Write_snd]
  exact ExtendsOpen_step _ _ (.write bs (nextWriteOk c.wres)) rfl rfl

theorem ExtendsOpen_Write_of_eq (c c1 : Conn) (bs : List Nat) (x : Nat × Option Error)
    (h : c.Write bs = (x, c1)) : c.ExtendsOpen c1 := by
  have := ExtendsOpen_Write c bs
  rwa [h] at this

theorem ExtendsOpen_handshakeNoAuth (srv : Server) (c : Conn) :
    c.ExtendsOpen (c.handshakeNoAuth srv).2 := by
  unfold Conn.handshakeNoAuth
  split
  · exact ExtendsOpen_refl c
  · split
    · exact ExtendsOpen_step _ _ .authNoAuth rfl rfl
    · split
      rename_i hw
      exact ExtendsOpen_trans (ExtendsOpen_step c _ .authNoAuth rfl rfl)
        (ExtendsOpen_Write_of_eq _ _ _ _ hw)

theorem ExtendsOpen_handshakeUsernamePassword (srv : Server) (c : Conn) :
    c.ExtendsOpen (c.handshakeUsernamePassword srv).2 := by
  unfold Conn.handshakeUsernamePassword
  rcases hw : c.Write [verSocks5, authUsernamePassword] with ⟨⟨n, _ | e⟩, c1⟩
  · have h1 := ExtendsOpen_Write_of_eq _ _ _ _ hw
    dsimp only
    rcases hr : userpass.ReadFrom {} c1.input with ⟨⟨m, _ | e⟩, up, r⟩
    · dsimp only
      rcases hcb : srv.AuthUsernamePasswordCallback with _ | cb
      · exact ExtendsOpen_trans h1 (ExtendsOpen_of_trace c1 _ rfl)
      · dsimp only
        rcases hres : cb c1.Data up.uname up.passwd with ⟨_ | e, d⟩
        · dsimp only
          exact ExtendsOpen_trans h1
            (ExtendsOpen_trans (ExtendsOpen_step c1 _ (.authUserPass up.uname up.passwd) rfl rfl)
              (ExtendsOpen_Write _ _))
        · dsimp only
          exact ExtendsOpen_trans h1
            (ExtendsOpen_trans (ExtendsOpen_step c1 _ (.authUserPass up.uname up.passwd) rfl rfl)
              (ExtendsOpen_Write _ _))
    · dsimp only
      exact ExtendsOpen_trans h1
        (ExtendsOpen_trans (ExtendsOpen_of_trace c1 _ rfl) (ExtendsOpen_Write _ _))
  · exact ExtendsOpen_Write_of_eq _ _ _ _ hw

theorem ExtendsOpen_handshakeUserPassOrRefuse (srv : Server) (head : header) (c : Conn) :
    c.ExtendsOpen (c.handshakeUserPassOrRefuse srv head).2 := by
  unfold Conn.handshakeUserPassOrRefuse
  split
  · exact ExtendsOpen_handshakeUsernamePassword srv c
  · exact ExtendsOpen_Write _ _

theorem ExtendsOpen_handshake (srv : Server) (c : Conn) :
    c.ExtendsOpen (c.handshake srv).2 := by
  unfold Conn.handshake
  rcases hr : header.ReadFrom {} c.input with ⟨⟨m, _ | e⟩, head, r⟩
  · dsimp only
    have h0 : c.ExtendsOpen { c with input := r } := ExtendsOpen_of_trace c _ rfl
    split
    · have h1 := ExtendsOpen_handshakeNoAuth srv { c with input := r }
      rcases hna : Conn.handshakeNoAuth srv { c with input := r } with ⟨out, c2⟩
      rw [hna] at h1
      have h2 := ExtendsOpen_handshakeUserPassOrRefuse srv head c2
      split
      · rename_i heq
        cases heq
        exact ExtendsOpen_trans h0 (ExtendsOpen_trans h1 h2)
      · rename_i heq
        cases heq
        exact ExtendsOpen_trans h0 h1
    · exact ExtendsOpen_trans h0 (ExtendsOpen_handshakeUserPassOrRefuse srv head _)
  · exact ExtendsOpen_of_trace c _ rfl

theorem ExtendsOpen_writeCommandErrorReply (c : Conn) (rep : Nat) :
    c.ExtendsOpen (writeCommandErrorReply c rep).2 := by
  unfold writeCommandErrorReply
  exact ExtendsOpen_Write _ _

theorem ExtendsOpen_runConnectHandlers
    (hs : List (Data → List Nat → (List Nat × Option Error) × Data)) :
    ∀ (i : Nat) (host : List Nat) (c : Conn),
      c.ExtendsOpen (Conn.runConnectHandlers hs i host c).2 := by
  induction hs with
  | nil =>
    intro i host c
    exact ExtendsOpen_refl c
  | cons h hs ih =>
    intro i host c
    unfold Conn.runConnectHandlers
    have hstep : ∀ d, c.ExtendsOpen { c.log (.connectHook i host) with Data := d } :=
      fun d => ExtendsOpen_step c _ (.connectHook i host) rfl rfl
    rcases hres : h c.Data host with ⟨⟨host1, _ | err⟩, d⟩
    · dsimp only
      exact ExtendsOpen_trans (hstep d) (ih _ _ _)
    · dsimp only
      split
      · exact ExtendsOpen_trans (hstep d) (ExtendsOpen_writeCommandErrorReply _ _)
      · exact ExtendsOpen_trans (hstep d) (ExtendsOpen_writeCommandErrorReply _ _)

theorem ExtendsOpen_WriteTo_of_eq (resp : cmdResp) (c c1 : Conn) (x : Nat × Option Error)
    (h : resp.WriteTo c = (x, c1)) : c.ExtendsOpen c1 := by
  unfold cmdResp.WriteTo at h
  rcases henc : resp.encode with e | buf
  · rw [henc] at h
    cases h
    exact ExtendsOpen_refl c
  · rw [henc] at h
    exact ExtendsOpen_Write_of_eq _ _ _ _ h

theorem ExtendsOpen_writeConnectReply (env : Env) (la : String) (c : Conn) :
    c.ExtendsOpen (c.writeConnectReply env la).2 := by
  unfold Conn.writeConnectReply
  rcases env.SplitHostPort la with err | ⟨host, port⟩
  · exact ExtendsOpen_writeCommandErrorReply _ _
  · dsimp only
    split
    · exact ExtendsOpen_refl c
    · rcases env.Atoi port with err | prt
      · exact ExtendsOpen_writeCommandErrorReply _ _
      · dsimp only
        split
        · rename_i heq
          exact ExtendsOpen_trans (ExtendsOpen_WriteTo_of_eq _ _ _ _ heq)
            (ExtendsOpen_writeCommandErrorReply _ _)
        · rename_i heq
          exact ExtendsOpen_WriteTo_of_eq _ _ _ _ heq

theorem ExtendsOpen_intro (c c1 : Conn) (es : List Event) (h : c1.trace = c.trace ++ es)
    (hn : es.all (fun e => !isCloseEvent e) = true) : c.ExtendsOpen c1 := by
  refine ⟨es, h, ?_⟩
  intro e he
  have := List.all_eq_true.mp hn e he
  simpa using this

theorem ExtendsOpen_splitter (env : Env) (c : Conn) :
    c.ExtendsOpen (c.splitter env).2 := by
  unfold Conn.splitter
  split
  · exact ExtendsOpen_of_trace _ _ rfl
  · dsimp only [Conn.log]
    repeat' split
    all_goals
      apply ExtendsOpen_intro
      · first
        | rfl
        | (simp only [List.append_assoc]; rfl)
      · rfl

theorem ExtendsOpen_connected (env : Env) (la : String) (c : Conn) :
    c.ExtendsOpen (c.connected env la).2 := by
  unfold Conn.connected
  have h1 := ExtendsOpen_writeConnectReply env la c
  rcases hr : c.writeConnectReply env la with ⟨_ | out, c1⟩
  · rw [hr] at h1
    dsimp only
    have h2 := ExtendsOpen_splitter env c1
    rcases hs : c1.splitter env with ⟨_ | out, c2⟩
    · rw [hs] at h2
      exact ExtendsOpen_trans h1 (ExtendsOpen_trans h2 (ExtendsOpen_intro _ _ [.relay] rfl rfl))
    · rw [hs] at h2
      exact ExtendsOpen_trans h1 h2
  · rw [hr] at h1
    exact h1

theorem ExtendsOpen_commandConnect (env : Env) (srv : Server) (cm : cmd) (c : Conn) :
    c.ExtendsOpen (c.commandConnect env srv cm).2 := by
  unfold Conn.commandConnect
  have h1 := ExtendsOpen_runConnectHandlers srv.connectHandlers 0 (cm.DestAddress env) c
  rcases hr : Conn.runConnectHandlers srv.connectHandlers 0 (cm.DestAddress env) c with
    ⟨out | host, c1⟩
  · rw [hr] at h1
    exact h1
  · rw [hr] at h1
    dsimp only
    have hd : c1.ExtendsOpen (c1.log (.dial host)) := ExtendsOpen_intro _ _ [.dial host] rfl rfl
    rcases env.Dial host with err | la
    · exact ExtendsOpen_trans h1 (ExtendsOpen_trans hd (ExtendsOpen_writeCommandErrorReply _ _))
    · dsimp only
      exact ExtendsOpen_trans h1 (ExtendsOpen_trans hd
        (ExtendsOpen_trans (ExtendsOpen_connected env la _)
          (ExtendsOpen_intro _ _ [.upClose] rfl rfl)))

theorem ExtendsOpen_command (env : Env) (srv : Server) (c : Conn) :
    c.ExtendsOpen (c.command env srv).2 := by
  unfold Conn.command
  rcases cmd.ReadFrom {} c.input with ⟨⟨n, _ | err⟩, cm, r⟩
  · dsimp only
    have h0 : c.ExtendsOpen { c with input := r } := ExtendsOpen_of_trace _ _ rfl
    split
    · exact ExtendsOpen_trans h0 (ExtendsOpen_commandConnect env srv cm _)
    · exact ExtendsOpen_trans h0 (ExtendsOpen_writeCommandErrorReply _ _)
  · dsimp only
    split
    · exact ExtendsOpen_trans (ExtendsOpen_of_trace c { c with input := r } rfl)
        (ExtendsOpen_writeCommandErrorReply _ _)
    · exact ExtendsOpen_of_trace _ _ rfl

theorem ExtendsOpen_serveBody (env : Env) (srv : Server) (c : Conn) :
    c.ExtendsOpen (c.serveBody env srv).2 := by
  unfold Conn.serveBody
  have h1 := ExtendsOpen_handshake srv c
  rcases hh : c.handshake srv with ⟨out, c1⟩
  rw [hh] at h1
  split
  · rename_i heq
    cases heq
    exact ExtendsOpen_trans h1 (ExtendsOpen_command env srv _)
  · rename_i heq
    cases heq
    exact h1

theorem runCloseHandlers_pass (k : Nat) :
    ∀ (hs : List (Data → Option String × Data)) (i0 : Nat) (c : Conn) (datas : Nat → Data),
      datas 0 = c.Data →
      (∀ i < k, ∃ h, hs[i]? = some h ∧ h (datas i) = (none, datas (i + 1))) →
      Conn.runCloseHandlers hs i0 c =
        Conn.runCloseHandlers (hs.drop k) (i0 + k)
          { c with
            trace := c.trace ++ (List.range k).map (fun i => Event.closeHook (i0 + i))
            Data := datas k } := by
  induction k with
  | zero =>
    intro hs i0 c datas hd0 _
    simp [hd0]
  | succ k ih =>
    intro hs i0 c datas hd0 hpass
    obtain ⟨h, hh, hcall⟩ := hpass 0 (Nat.succ_pos k)
    rcases hs with _ | ⟨h', tl⟩
    · simp at hh
    · simp only [List.getElem?_cons_zero, Option.some.injEq] at hh
      subst hh
      rw [hd0] at hcall
      have hstep := ih tl (i0 + 1)
        { c.log (.closeHook i0) with Data := datas 1 }
        (fun i => datas (i + 1)) rfl
        (fun i hi => by simpa using hpass (i + 1) (Nat.succ_lt_succ hi))
      simp only [Conn.runCloseHandlers, hcall, List.drop_succ_cons]
      simp only [zero_add] at hstep ⊢
      rw [hstep]
      have hr : List.range (k + 1) = 0 :: (List.range k).map Nat.succ :=
        List.range_succ_eq_map k
      rw [hr]
      simp [Conn.log, Function.comp_def, Nat.add_assoc, Nat.add_comm 1]

/-- C16 as stated fails when a close handler panics: on a connection whose handshake
fails (the client sends nothing), with two close handlers of which the first panics,
`Conn.serve` ends in that panic after the call of the first handler: the second
handler is not called and the client socket is not closed. -/
theorem serve_close_hook_panic :
    (Conn.serveBody sampleEnv panicCloseServer {}).1 = .ret (some .EOF) ∧
    panicCloseServer.closeHandlers.length = 2 ∧
    Conn.serve sampleEnv panicCloseServer {} =
      (.panic "close handler failed", { trace := [.closeHook 0] }) ∧
    Event.closeHook 1 ∉ (Conn.serve sampleEnv panicCloseServer {}).2.trace ∧
    Event.rwcClose ∉ (Conn.serve sampleEnv panicCloseServer {}).2.trace := by
  decide

/-- C16, as the code has it: whatever the connection receives and however the body of
`Conn.serve` ends (the handshake fails, the command fails, both succeed, or one of
them panics), the body calls no close handler and does not close the socket, and
then the close handlers are called in registration order, each on the connection as
its predecessor left it (`datas i` is the datum handler `i` finds, the first the
datum the body left). When all of them return, each was called once, the one close of
the client socket follows the last and `serve` returns. When handler `k` panics after
the handlers before it returned, that call is the last event: no later handler is
called, the socket is not closed, and `serve` ends in the panic. -/
theorem serve_runs_close_hooks_once (env : Env) (srv : Server) (c : Conn) (k : Nat)
    (datas : Nat → Data) (hd0 : datas 0 = (c.serveBody env srv).2.Data)
    (hpass : ∀ i < k, ∃ h, srv.closeHandlers[i]? = some h ∧
      h (datas i) = (none, datas (i + 1))) :
    ∃ es, (∀ e ∈ es, isCloseEvent e = false) ∧
      (c.serveBody env srv).2.trace = c.trace ++ es ∧
      (srv.closeHandlers.length = k →
        c.serve env srv =
          (.ret none, { (c.serveBody env srv).2 with
            trace := c.trace ++ es ++ (List.range k).map (fun i => Event.closeHook i) ++
              [.rwcClose]
            Data := datas k })) ∧
      (∀ h msg d, srv.closeHandlers[k]? = some h → h (datas k) = (some msg, d) →
        c.serve env srv =
          (.panic msg, { (c.serveBody env srv).2 with
            trace := c.trace ++ es ++ (List.range (k + 1)).map (fun i => Event.closeHook i)
            Data := d })) := by
  obtain ⟨es, hes, hn⟩ := ExtendsOpen_serveBody env srv c
  have hrun := runCloseHandlers_pass k srv.closeHandlers 0 (c.serveBody env srv).2 datas hd0
    hpass
  refine ⟨es, hn, hes, ?_, ?_⟩
  · intro hlen
    have hdrop : srv.closeHandlers.drop k = [] := by
      rw [← hlen]
      exact List.drop_length _
    simp only [Conn.serve, Conn.close, hrun, hdrop, Conn.runCloseHandlers, zero_add, hes]
    simp [Conn.log]
  · intro h msg d hh hcall
    obtain ⟨hk, hget⟩ := List.getElem?_eq_some_iff.mp hh
    have hdrop : srv.closeHandlers.drop k = h :: srv.closeHandlers.drop (k + 1) := by
      rw [← hget]
      exact List.drop_eq_getElem_cons hk
    simp only [Conn.serve, Conn.close, hrun, hdrop, Conn.runCloseHandlers, zero_add, hes,
      hcall]
    simp [Conn.log, List.range_succ]

set_option maxRecDepth 100000 in
theorem serve_runs_close_hooks_once_witness :
    (Conn.serveBody zoneEnv sampleCloseServer zoneClient).1 =
      .panic "slice bounds out of range" ∧
    Conn.serve zoneEnv sampleCloseServer zoneClient =
      (.ret none,
        { trace := [.authNoAuth, .write [0x05, 0x00] true,
            .dial (goString "printer.local:80"), .upClose,
            .closeHook 0, .closeHook 1, .rwcClose]
          Data := some "first, second" }) := by
  obtain ⟨es, -, hes, hall, -⟩ := serve_runs_close_hooks_once zoneEnv sampleCloseServer
    zoneClient 2
    (fun i => if i = 0 then none else if i = 1 then some "first" else some "first, second")
    rfl
    (fun i hi => by
      rcases (by omega : i = 0 ∨ i = 1) with rfl | rfl
      · exact ⟨_, rfl, rfl⟩
      · exact ⟨_, rfl, rfl⟩)
  have hb : (Conn.serveBody zoneEnv sampleCloseServer zoneClient).2 =
      { trace := [.authNoAuth, .write [0x05, 0x00] true,
          .dial (goString "printer.local:80"), .upClose] } := by
    decide
  rw [hb] at hes
  have hes1 : es = [.authNoAuth, .write [0x05, 0x00] true,
      .dial (goString "printer.local:80"), .upClose] := by
    simpa [zoneClient] using hes.symm
  subst hes1
  refine ⟨by decide, ?_⟩
  rw [hall rfl, hb]
  rfl

/-! ## C14: the backoff of the accept loop -/

theorem nextTempDelay_zero : nextTempDelay 0 = backoffDelay 1 := by decide

theorem wrapInt64_id (x : Int) (h1 : -9223372036854775808 ≤ x)
    (h2 : x < 9223372036854775808) : wrapInt64 x = x := by
  unfold wrapInt64
  rw [Int.emod_eq_of_lt (by omega) (by omega)]
  omega

theorem nextTempDelay_le (d : Int) (h0 : 0 < d) (h1 : d ≤ 1000000000) :
    nextTempDelay d = min (d * 2) 1000000000 := by
  have hne : d ≠ 0 := by omega
  unfold nextTempDelay Second
  simp only [hne, if_false]
  rw [wrapInt64_id (d * 2) (by omega) (by omega), wrapInt64_id (1 * 1000000000) (by omega)
    (by omega)]
  simp only [min_def]
  split_ifs <;> omega

theorem nextTempDelay_backoff (k : Nat) (hk : 1 ≤ k) :
    nextTempDelay (backoffDelay k) = backoffDelay (k + 1) := by
  obtain ⟨j, rfl⟩ : ∃ j, k = j + 1 := ⟨k - 1, by omega⟩
  have hpos : (1 : Int) ≤ 2 ^ j := by
    have : (0 : Int) < 2 ^ j := by positivity
    omega
  have hpow : (2 : Int) ^ (j + 1) = 2 * 2 ^ j := by
    rw [pow_succ]
    ring
  simp only [backoffDelay, Nat.add_sub_cancel, hpow]
  generalize (2 : Int) ^ j = x at hpos
  rw [nextTempDelay_le _ (by simp only [min_def]; split_ifs <;> omega)
    (by simp only [min_def]; split_ifs <;> omega)]
  simp only [min_def]
  split_ifs <;> omega

theorem foldl_acceptStep_temporary (k : Nat) :
    ∀ s : LoopState, s.returned = none → s.tempDelay = 0 →
      (List.replicate k AcceptResult.temporary).foldl acceptStep s =
        { s with
          tempDelay := if k = 0 then 0 else backoffDelay k
          events := s.events ++ (List.range k).map (fun i => LoopEvent.sleep (backoffDelay (i + 1))) } := by
  induction k with
  | zero =>
    intro s _ h0
    simp [← h0]
  | succ k ih =>
    intro s hret h0
    rw [List.replicate_succ', List.foldl_append, ih s hret h0]
    simp only [List.foldl_cons, List.foldl_nil, acceptStep, hret]
    have hd : nextTempDelay (if k = 0 then 0 else backoffDelay k) = backoffDelay (k + 1) := by
      by_cases hk : k = 0
      · subst hk
        exact nextTempDelay_zero
      · rw [if_neg hk]
        exact nextTempDelay_backoff k (by omega)
    simp [hd, List.range_succ]

theorem foldl_acceptStep_returned (pre : List AcceptResult)
    (hfatal : ∀ a ∈ pre, a = AcceptResult.conn ∨ a = AcceptResult.temporary) :
    ∀ s : LoopState, s.returned = none → (pre.foldl acceptStep s).returned = none := by
  induction pre with
  | nil =>
    intro s hs
    exact hs
  | cons a as ih =>
    intro s hs
    rw [List.foldl_cons]
    apply ih (fun x h => hfatal x (List.mem_cons_of_mem _ h))
    cases a with
    | conn => simp [acceptStep, hs]
    | temporary => simp [acceptStep, hs]
    | fatal err =>
      have := hfatal (.fatal err) (List.mem_cons_self _ _)
      simp at this

theorem backoffDelay_cap (k : Nat) (hk : 9 ≤ k) : backoffDelay k = 1000000000 := by
  have h8 : (2 : Int) ^ 8 ≤ 2 ^ (k - 1) := pow_le_pow_right₀ (by norm_num) (by omega)
  unfold backoffDelay
  rw [min_eq_right]
  norm_num at h8
  omega

/-- C14: `net.Listen` succeeded, no accept so far failed for good, and the loop is at its
start or right after a successful accept. On `k` temporary accept errors in a row
the loop sleeps `min(5 ms * 2^(i-1), 1 s)` after the `i`-th of them and is then
still running (it has not returned). These delays are 5, 10, 20, 40, 80, 160, 320,
640 ms and then one second for ever; none exceeds one second, so that the doubling
of the `int64` never wraps. After a successful accept the count starts again: the
next temporary error sleeps 5 ms. -/
theorem accept_backoff_schedule (pre : List AcceptResult) (k : Nat)
    (hfatal : ∀ a ∈ pre, a = AcceptResult.conn ∨ a = AcceptResult.temporary)
    (hlast : pre = [] ∨ pre.getLast? = some .conn) :
    ListenAndServe none (pre ++ List.replicate k .temporary) =
        { ListenAndServe none pre with
          tempDelay := if k = 0 then 0 else backoffDelay k
          events := (ListenAndServe none pre).events ++
            (List.range k).map (fun i => LoopEvent.sleep (backoffDelay (i + 1))) } ∧
      (ListenAndServe none (pre ++ List.replicate k .temporary)).returned = none ∧
      (List.range 9).map (fun i => backoffDelay (i + 1)) =
        [5 * Millisecond, 10 * Millisecond, 20 * Millisecond, 40 * Millisecond,
          80 * Millisecond, 160 * Millisecond, 320 * Millisecond, 640 * Millisecond,
          1 * Second] ∧
      (∀ i, 9 ≤ i → backoffDelay i = 1 * Second) ∧
      (∀ i, backoffDelay i ≤ 1 * Second ∧
        wrapInt64 (backoffDelay i * 2) = backoffDelay i * 2) := by
  have hret : (ListenAndServe none pre).returned = none :=
    foldl_acceptStep_returned pre hfatal {} rfl
  have hdelay : (ListenAndServe none pre).tempDelay = 0 := by
    rcases hlast with rfl | hl
    · rfl
    · obtain ⟨init, rfl⟩ : ∃ init, pre = init ++ [.conn] := by
        rcases List.eq_nil_or_concat pre with rfl | ⟨init, a, rfl⟩
        · simp at hl
        · simp at hl
          exact ⟨init, by rw [hl]; simp⟩
      have hinit : (init.foldl acceptStep {}).returned = none :=
        foldl_acceptStep_returned init
          (fun x h => hfatal x (List.mem_append_left _ h)) {} rfl
      simp [ListenAndServe, List.foldl_append, acceptStep, hinit]
  have hmain := foldl_acceptStep_temporary k (ListenAndServe none pre) hret hdelay
  have hrun : ListenAndServe none (pre ++ List.replicate k .temporary) =
      (List.replicate k AcceptResult.temporary).foldl acceptStep (ListenAndServe none pre) := by
    simp [ListenAndServe, List.foldl_append]
  refine ⟨by rw [hrun, hmain], by rw [hrun, hmain]; exact hret, by decide, ?_, ?_⟩
  · intro i hi
    exact backoffDelay_cap i hi
  · intro i
    have hle : backoffDelay i ≤ 1000000000 := min_le_right _ _
    have hpos : 0 < backoffDelay i := by
      unfold backoffDelay
      have : (0 : Int) < 2 ^ (i - 1) := by positivity
      simp only [lt_min_iff]
      constructor <;> omega
    exact ⟨hle, wrapInt64_id _ (by omega) (by omega)⟩

theorem accept_backoff_schedule_witness :
    (ListenAndServe none
        [.conn, .temporary, .conn, .temporary, .temporary, .temporary]).events =
      [.serve, .sleep 5000000, .serve, .sleep 5000000, .sleep 10000000, .sleep 20000000] ∧
    (ListenAndServe none
        [.conn, .temporary, .conn, .temporary, .temporary, .temporary]).returned = none := by
  have h := accept_backoff_schedule [.conn, .temporary, .conn] 3 (by decide) (Or.inr rfl)
  refine ⟨?_, h.2.1⟩
  have h1 := congrArg LoopState.events h.1
  simp only [List.replicate, List.cons_append, List.nil_append] at h1
  rw [h1]
  decide

/-! ## C15: the text of the destination -/

theorem foldl_append_only (c : Nat → Prop) [DecidablePred c] (x : Nat → Char) :
    ∀ (l : List Nat) (dst : List Char),
      l.foldl (fun d j => if c j then d ++ [x j] else d) dst =
        dst ++ l.foldl (fun d j => if c j then d ++ [x j] else d) [] := by
  intro l
  induction l with
  | nil =>
    intro dst
    simp
  | cons j t ih =>
    intro dst
    simp only [List.foldl_cons]
    rw [ih, ih (if c j then [] ++ [x j] else [])]
    by_cases hc : c j <;> simp [hc]

theorem appendHex_eq (b : List Char) (v : Nat) : appendHex b v = b ++ hexGroup v := by
  unfold hexGroup appendHex
  by_cases h : v = 0
  · simp [h]
  · simp only [h, if_false]
    exact foldl_append_only (fun j => v / 16 ^ j > 0) (fun j => Nat.digitChar (v / 16 ^ j % 16))
      _ b

theorem zeroRunEnd_congr (z z1 : Nat → Bool) (h : ∀ k < 8, z (2 * k) = z1 (2 * k)) :
    ∀ (fuel k : Nat), zeroRunEnd z fuel (2 * k) = zeroRunEnd z1 fuel (2 * k) ∧
      ∃ m, zeroRunEnd z fuel (2 * k) = 2 * m := by
  intro fuel
  induction fuel with
  | zero =>
    intro k
    exact ⟨rfl, k, rfl⟩
  | succ fuel ih =>
    intro k
    simp only [zeroRunEnd, IPv6len]
    by_cases hk : 2 * k < 16
    · have hz := h k (by omega)
      rw [← hz]
      by_cases hzk : z (2 * k) = true
      · simp only [hk, hzk, and_self, if_true]
        exact ih (k + 1)
      · simp [hzk]
    · simp [hk]

theorem longestZeroRun_congr (z z1 : Nat → Bool) (h : ∀ k < 8, z (2 * k) = z1 (2 * k)) :
    ∀ (fuel k : Nat) (e : Int × Int),
      longestZeroRun z fuel (2 * k) e = longestZeroRun z1 fuel (2 * k) e := by
  intro fuel
  induction fuel with
  | zero =>
    intro k e
    rfl
  | succ fuel ih =>
    intro k e
    obtain ⟨e0, e1⟩ := e
    obtain ⟨hc, m, hm⟩ := zeroRunEnd_congr z z1 h 8 k
    simp only [longestZeroRun, ← hc]
    rw [hm, show 2 * m + 2 = 2 * (m + 1) by ring, show 2 * k + 2 = 2 * (k + 1) by ring,
      ih (m + 1), ih (k + 1)]

theorem zeroRun_congr (z z1 : Nat → Bool) (h : ∀ k < 8, z (2 * k) = z1 (2 * k)) :
    zeroRun z = zeroRun z1 := by
  unfold zeroRun
  rw [show (0 : Nat) = 2 * 0 by rfl, longestZeroRun_congr z z1 h 8 0]

theorem zeroRun_eq_canonicalRun :
    ∀ b0 b1 b2 b3 b4 b5 b6 b7 : Bool,
      zeroRun (fun j => [b0, b1, b2, b3, b4, b5, b6, b7].getD (j / 2) false) =
          runBytes (canonicalRun [b0, b1, b2, b3, b4, b5, b6, b7]) ∧
        runFits (canonicalRun [b0, b1, b2, b3, b4, b5, b6, b7]) = true := by
  decide

theorem printGroups_none (a0 a1 a2 a3 a4 a5 a6 a7 a8 a9 a10 a11 a12 a13 a14 a15 : Nat) :
    printGroups [a0, a1, a2, a3, a4, a5, a6, a7, a8, a9, a10, a11, a12, a13, a14, a15]
        (-1) (-1) 8 0 [] =
      [':'].intercalate
        ((ipv6Groups [a0, a1, a2, a3, a4, a5, a6, a7, a8, a9, a10, a11, a12, a13, a14, a15]).map
          hexGroup) := by
  simp [printGroups, appendHex_eq, ipv6Groups, List.range, List.range.loop, IPv6len,
    List.intercalate, List.intersperse]

theorem printGroups_some (a0 a1 a2 a3 a4 a5 a6 a7 a8 a9 a10 a11 a12 a13 a14 a15 : Nat)
    (s n : Nat) (hs : s + n ≤ 8) (hn : 2 ≤ n) :
    printGroups [a0, a1, a2, a3, a4, a5, a6, a7, a8, a9, a10, a11, a12, a13, a14, a15]
        ((2 * s : Nat) : Int) ((2 * (s + n) : Nat) : Int) 8 0 [] =
      [':'].intercalate
          (((ipv6Groups
            [a0, a1, a2, a3, a4, a5, a6, a7, a8, a9, a10, a11, a12, a13, a14, a15]).take s).map
              hexGroup) ++ [':', ':'] ++
        [':'].intercalate
          (((ipv6Groups
            [a0, a1, a2, a3, a4, a5, a6, a7, a8, a9, a10, a11, a12, a13, a14, a15]).drop
              (s + n)).map hexGroup) := by
  have hs6 : s ≤ 6 := by omega
  have hn8 : n ≤ 8 := by omega
  interval_cases s <;> interval_cases n <;>
    first
    | omega
    | simp [printGroups, appendHex_eq, ipv6Groups, List.range, List.range.loop, IPv6len,
        List.intercalate, List.intersperse]

theorem decide_group_zero (x y : Nat) :
    decide (x = 0 ∧ y = 0) = decide (x * 256 + y = 0) := by
  by_cases hx : x = 0 <;> by_cases hy : y = 0 <;> simp [hx, hy]

theorem netIPString_canonical (a : List Nat) (hlen : a.length = 16) (h4 : To4 a = none) :
    netIPString a = canonicalIPv6 a := by
  obtain ⟨a0, a1, a2, a3, a4, a5, a6, a7, a8, a9, a10, a11, a12, a13, a14, a15, rfl⟩ :
      ∃ a0 a1 a2 a3 a4 a5 a6 a7 a8 a9 a10 a11 a12 a13 a14 a15,
        a = [a0, a1, a2, a3, a4, a5, a6, a7, a8, a9, a10, a11, a12, a13, a14, a15] := by
    rcases a with _ | ⟨a0, _ | ⟨a1, _ | ⟨a2, _ | ⟨a3, _ | ⟨a4, _ | ⟨a5, _ | ⟨a6, _ | ⟨a7,
      _ | ⟨a8, _ | ⟨a9, _ | ⟨a10, _ | ⟨a11, _ | ⟨a12, _ | ⟨a13, _ | ⟨a14, _ | ⟨a15, _ | ⟨a16, t⟩⟩⟩⟩⟩⟩⟩⟩⟩⟩⟩⟩⟩⟩⟩⟩⟩ <;>
      simp at hlen
    exact ⟨_, _, _, _, _, _, _, _, _, _, _, _, _, _, _, _, rfl⟩
  have hbits : (ipv6Groups [a0, a1, a2, a3, a4, a5, a6, a7, a8, a9, a10, a11, a12, a13, a14,
      a15]).map (fun v => decide (v = 0)) =
      [decide (a0 * 256 + a1 = 0), decide (a2 * 256 + a3 = 0), decide (a4 * 256 + a5 = 0),
        decide (a6 * 256 + a7 = 0), decide (a8 * 256 + a9 = 0), decide (a10 * 256 + a11 = 0),
        decide (a12 * 256 + a13 = 0), decide (a14 * 256 + a15 = 0)] := by
    simp [ipv6Groups, List.range, List.range.loop]
  have hrun := zeroRun_eq_canonicalRun (decide (a0 * 256 + a1 = 0))
    (decide (a2 * 256 + a3 = 0)) (decide (a4 * 256 + a5 = 0)) (decide (a6 * 256 + a7 = 0))
    (decide (a8 * 256 + a9 = 0)) (decide (a10 * 256 + a11 = 0))
    (decide (a12 * 256 + a13 = 0)) (decide (a14 * 256 + a15 = 0))
  have hz : zeroRun (fun j =>
      decide ([a0, a1, a2, a3, a4, a5, a6, a7, a8, a9, a10, a11, a12, a13, a14, a15].getD j 0 = 0 ∧
        [a0, a1, a2, a3, a4, a5, a6, a7, a8, a9, a10, a11, a12, a13, a14, a15].getD (j + 1) 0 =
          0)) =
      runBytes (canonicalRun [decide (a0 * 256 + a1 = 0), decide (a2 * 256 + a3 = 0),
        decide (a4 * 256 + a5 = 0), decide (a6 * 256 + a7 = 0), decide (a8 * 256 + a9 = 0),
        decide (a10 * 256 + a11 = 0), decide (a12 * 256 + a13 = 0),
        decide (a14 * 256 + a15 = 0)]) := by
    rw [← hrun.1]
    apply zeroRun_congr
    intro k hk
    interval_cases k <;> simp [decide_group_zero]
  unfold netIPString canonicalIPv6
  rw [h4, hbits, hlen]
  simp only [IPv6len, show (16 : Nat) ≠ 0 by decide, if_false, ne_eq, not_true_eq_false]
  rw [hz]
  rcases hc : canonicalRun [decide (a0 * 256 + a1 = 0), decide (a2 * 256 + a3 = 0),
      decide (a4 * 256 + a5 = 0), decide (a6 * 256 + a7 = 0), decide (a8 * 256 + a9 = 0),
      decide (a10 * 256 + a11 = 0), decide (a12 * 256 + a13 = 0),
      decide (a14 * 256 + a15 = 0)] with _ | ⟨s, n⟩
  · simp only [runBytes]
    rw [printGroups_none a0 a1 a2 a3 a4 a5 a6 a7 a8 a9 a10 a11 a12 a13 a14 a15]
  · have hfit := hrun.2
    rw [hc] at hfit
    simp only [runFits, Bool.and_eq_true, decide_eq_true_eq] at hfit
    simp only [runBytes]
    rw [printGroups_some a0 a1 a2 a3 a4 a5 a6 a7 a8 a9 a10 a11 a12 a13 a14 a15 s n
      hfit.1 hfit.2]

theorem To4_of_mapped (a : List Nat) (hlen : a.length = 16) :
    (ipv4Mapped a → To4 a = some [a.getD 12 0, a.getD 13 0, a.getD 14 0, a.getD 15 0]) ∧
      (¬ ipv4Mapped a → To4 a = none) := by
  rcases a with _ | ⟨a0, _ | ⟨a1, _ | ⟨a2, _ | ⟨a3, _ | ⟨a4, _ | ⟨a5, _ | ⟨a6, _ | ⟨a7,
    _ | ⟨a8, _ | ⟨a9, _ | ⟨a10, _ | ⟨a11, _ | ⟨a12, _ | ⟨a13, _ | ⟨a14, _ | ⟨a15, _ | ⟨a16, t⟩⟩⟩⟩⟩⟩⟩⟩⟩⟩⟩⟩⟩⟩⟩⟩⟩ <;>
    simp at hlen
  constructor
  · intro h
    simp only [ipv4Mapped, List.take, List.cons.injEq, and_true] at h
    obtain ⟨rfl, rfl, rfl, rfl, rfl, rfl, rfl, rfl, rfl, rfl, rfl, rfl⟩ := h
    simp [To4, IPv4len, IPv6len]
  · intro h
    simp only [ipv4Mapped, List.take, List.cons.injEq, and_true] at h
    simp only [To4, IPv4len, IPv6len, List.length_cons, List.length_nil]
    rw [if_neg (by decide), if_neg]
    intro hc
    apply h
    simp at hc
    obtain ⟨⟨h0, h1, h2, h3, h4, h5, h6, h7, h8, h9⟩, h10, h11⟩ := hc
    exact ⟨h0, h1, h2, h3, h4, h5, h6, h7, h8, h9, h10, h11⟩

theorem goString_append (a b : String) : goString (a ++ b) = goString a ++ goString b := by
  simp [goString, String.data_append]

theorem toDigitsCore_digits :
    ∀ (fuel n : Nat) (ds : List Char), n < fuel → 0 < n →
      Nat.toDigitsCore 10 fuel n ds = (Nat.digits 10 n).reverse.map Nat.digitChar ++ ds := by
  intro fuel
  induction fuel with
  | zero => intro n ds h; omega
  | succ fuel ih =>
    intro n ds hlt hpos
    have hd : Nat.digits 10 n = n % 10 :: Nat.digits 10 (n / 10) :=
      Nat.digits_def' (by decide) hpos
    by_cases h0 : n / 10 = 0
    · simp [Nat.toDigitsCore, h0, hd]
    · have h1 : 0 < n / 10 := Nat.pos_of_ne_zero h0
      have h2 : n / 10 < fuel := by omega
      simp [Nat.toDigitsCore, h0, hd, ih (n / 10) _ h2 h1]

theorem toString_eq_decimal (n : Nat) : toString n = decimal n := by
  show Nat.repr n = decimal n
  unfold decimal Nat.repr Nat.toDigits
  by_cases h : n = 0
  · subst h
    rfl
  · rw [toDigitsCore_digits (n + 1) n [] (Nat.lt_succ_self n) (Nat.pos_of_ne_zero h)]
    simp [h, List.asString]

theorem netIPString_netIPv4 (a b c d : Nat) :
    netIPString (netIPv4 a b c d) = dottedQuad a b c d := by
  simp [netIPString, netIPv4, To4, IPv4len, IPv6len, dottedQuad, toString_eq_decimal,
    String.intercalate, String.intercalate.go]

/-- C15 as stated fails on an IPv4-mapped address: for the request with address type
0x04, the sixteen bytes of `::ffff:1.2.3.4` and port 80, `cmd.DestAddress` is
`1.2.3.4:80`, the text of the IPv4 address, and not the canonical IPv6 text
`::ffff:102:304` of these bytes followed by `:80`. -/
theorem destAddress_mapped_is_dotted :
    mappedRequest.DestAddress goEnv = goString "1.2.3.4:80" ∧
      specHost mappedRequest = goString "::ffff:102:304" ∧
      mappedRequest.DestAddress goEnv ≠
        specHost mappedRequest ++ goString ":" ++
          goString (decimal mappedRequest.dst_port) := by
  rw [← toString_eq_decimal]
  decide

/-- C15, as the code has it: for a parsed request (address type 0x01 with 4 bytes, 0x03,
or 0x04 with 16 bytes), with the address text of the Go library, `cmd.DestAddress` is
the host, `:` and the decimal port, where the host is the dotted quad for 0x01, the
raw bytes as text for 0x03 and, for 0x04, the canonical IPv6 text of the 16 bytes
unless they are an IPv4-mapped address, whose host is the dotted quad of the last
four bytes. Raw bytes as text: when the bytes of a domain name are the UTF-8 bytes of a
text `s`, the result is the text `s`, `:` and the decimal port. -/
theorem destAddress_text (env : Env) (c : cmd) (henv : env.IPString = netIPString)
    (hshape : (c.atyp = 0x01 ∧ c.dst_addr.length = 4) ∨ c.atyp = 0x03 ∨
      (c.atyp = 0x04 ∧ c.dst_addr.length = 16)) :
    c.DestAddress env = destHost c ++ goString ":" ++ goString (decimal c.dst_port) ∧
      (¬ ipv4Mapped c.dst_addr → destHost c = specHost c) ∧
      (∀ s : String, c.atyp = 0x03 → c.dst_addr = goString s →
        c.DestAddress env = goString (s ++ ":" ++ decimal c.dst_port)) := by
  have hmain : c.DestAddress env =
      destHost c ++ goString ":" ++ goString (decimal c.dst_port) := by
    rcases hshape with ⟨ha, _⟩ | ha | ⟨ha, hlen⟩
    · simp [cmd.DestAddress, destHost, specHost, ha, atypIPv4Address, atypIPv6Address, henv,
        netIPString_netIPv4, toString_eq_decimal]
    · simp [cmd.DestAddress, destHost, specHost, ha, atypIPv4Address, atypIPv6Address,
        atypDomainName, toString_eq_decimal]
    · have hto := To4_of_mapped c.dst_addr hlen
      have hne : c.dst_addr.length ≠ 0 := by omega
      by_cases hm : ipv4Mapped c.dst_addr
      · have h4 := hto.1 hm
        simp [cmd.DestAddress, destHost, ha, atypIPv4Address, atypIPv6Address,
          atypDomainName, henv, hm, netIPString, h4, hne, toString_eq_decimal, dottedQuad,
          String.intercalate, String.intercalate.go]
      · have h4 := hto.2 hm
        simp [cmd.DestAddress, destHost, specHost, ha, atypIPv4Address, atypIPv6Address,
          atypDomainName, henv, hm, netIPString_canonical _ hlen h4, toString_eq_decimal]
  refine ⟨hmain, fun h => by simp [destHost, h], ?_⟩
  intro s ha hs
  rw [hmain, goString_append, goString_append]
  simp [destHost, specHost, ha, atypIPv6Address, atypIPv4Address, atypDomainName, hs]

theorem destAddress_text_witness :
    (ipv6Request.DestAddress goEnv = goString "2001:db8::1:443" ∧
      specHost ipv6Request = goString "2001:db8::1") ∧
    (accentRequest.dst_addr = goString "é" ∧
      accentRequest.DestAddress goEnv = goString "é:80") ∧
    sampleRequest.DestAddress goEnv = goString "127.0.0.1:80" := by
  have h := destAddress_text goEnv ipv6Request rfl (Or.inr (Or.inr ⟨rfl, rfl⟩))
  have hs : specHost ipv6Request = goString "2001:db8::1" := by decide
  have ha := (destAddress_text goEnv accentRequest rfl (Or.inr (Or.inl rfl))).2.2 "é" rfl
    (by decide)
  have h4 := (destAddress_text goEnv sampleRequest rfl (Or.inl ⟨rfl, rfl⟩)).1
  have hd443 : decimal ipv6Request.dst_port = "443" := by rw [← toString_eq_decimal]; rfl
  have hd80 : decimal accentRequest.dst_port = "80" := by rw [← toString_eq_decimal]; rfl
  have hd80s : decimal sampleRequest.dst_port = "80" := by rw [← toString_eq_decimal]; rfl
  refine ⟨⟨?_, hs⟩, ⟨by decide, ?_⟩, ?_⟩
  · rw [h.1, h.2.1 (by decide), hs]
    rw [hd443]
    rfl
  · rw [ha, hd80]
    rfl
  · rw [h4]
    have hq : destHost sampleRequest = goString "127.0.0.1" := by
      have : dottedQuad 127 0 0 1 = "127.0.0.1" := by
        simp only [dottedQuad, ← toString_eq_decimal]
        rfl
      simp [destHost, specHost, sampleRequest, atypIPv6Address, atypIPv4Address, this]
    rw [hq, hd80s]
    rfl

/-! ### The fuel of the loops of `netIPString` is enough

Each loop moves its index forward by two at least, so eight turns reach the end of the
sixteen bytes: more fuel does not change any result. -/

theorem zeroRunEnd_fuel (z : Nat → Bool) :
    ∀ (fuel j : Nat), 16 ≤ j + 2 * fuel → ∀ n,
      zeroRunEnd z (fuel + n) j = zeroRunEnd z fuel j := by
  intro fuel
  induction fuel with
  | zero =>
    intro j hj n
    cases n with
    | zero => rfl
    | succ n =>
      have : ¬ j < 16 := by omega
      simp [zeroRunEnd, IPv6len, this]
  | succ fuel ih =>
    intro j hj n
    rw [show fuel + 1 + n = (fuel + n) + 1 by omega]
    simp only [zeroRunEnd]
    split
    · exact ih (j + 2) (by omega) n
    · rfl

theorem zeroRunEnd_ge (z : Nat → Bool) : ∀ (fuel j : Nat), j ≤ zeroRunEnd z fuel j := by
  intro fuel
  induction fuel with
  | zero =>
    intro j
    exact le_refl j
  | succ fuel ih =>
    intro j
    simp only [zeroRunEnd]
    split
    · exact le_trans (by omega) (ih (j + 2))
    · exact le_refl j

theorem longestZeroRun_fuel (z : Nat → Bool) :
    ∀ (fuel i : Nat) (e : Int × Int), 16 ≤ i + 2 * fuel → ∀ n,
      longestZeroRun z (fuel + n) i e = longestZeroRun z fuel i e := by
  intro fuel
  induction fuel with
  | zero =>
    intro i e hi n
    obtain ⟨e0, e1⟩ := e
    cases n with
    | zero => rfl
    | succ n =>
      have : ¬ i < 16 := by omega
      simp [longestZeroRun, IPv6len, this]
  | succ fuel ih =>
    intro i e hi n
    obtain ⟨e0, e1⟩ := e
    rw [show fuel + 1 + n = (fuel + n) + 1 by omega]
    simp only [longestZeroRun]
    have hge := zeroRunEnd_ge z 8 i
    split
    · split
      · exact ih _ _ (by omega) n
      · exact ih _ _ (by omega) n
    · rfl

theorem printGroups_fuel (p : List Nat) (e0 e1 : Int) (he : e0 < 0 ∨ e0 < e1) :
    ∀ (fuel i : Nat) (b : List Char), 16 ≤ i + 2 * fuel → ∀ n,
      printGroups p e0 e1 (fuel + n) i b = printGroups p e0 e1 fuel i b := by
  intro fuel
  induction fuel with
  | zero =>
    intro i b hi n
    cases n with
    | zero => rfl
    | succ n =>
      have : ¬ i < 16 := by omega
      simp [printGroups, IPv6len, this]
  | succ fuel ih =>
    intro i b hi n
    rw [show fuel + 1 + n = (fuel + n) + 1 by omega]
    simp only [printGroups]
    split
    · split
      · rename_i hie
        split
        · rfl
        · exact ih _ _ (by omega) n
      · exact ih _ _ (by omega) n
    · rfl

end Socks5
